import Mathlib

/-!
# Ayup server: analysis and build orchestration

A shallow embedding of `go/srv/analysis.go` (package `srv`): the process
controller `execProcess`, the log sink `logWriter.Write`, the build status
tracker `buildkitStatusSender`, and the requirements scan and strategy
selection of `Srv.Analysis`.

Go byte strings are lists of characters, one character per byte.  Calls into
collaborators (the session stream, the container process, the file system, the
build engine) are explicit oracles, and the effects of the code are recorded as
explicit state.
-/

set_option autoImplicit false

namespace Ayup

/-- A Go `[]byte` / `string`: a sequence of bytes, one `Char` per byte. -/
abbrev Bytes := List Char

/-! ## Library functions used by the source (`bytes`, `strings`) -/

/-- Go `bytes.TrimRight(s, cutset)` / `strings.TrimRight`: drop every trailing
byte that occurs in `cutset`. -/
def TrimRight (s : Bytes) (cutset : Bytes) : Bytes :=
  (s.reverse.dropWhile (fun c => cutset.contains c)).reverse

/-- Go `strings.TrimLeft(s, cutset)`: drop every leading byte that occurs in
`cutset`. -/
def TrimLeft (s : Bytes) (cutset : Bytes) : Bytes :=
  s.dropWhile (fun c => cutset.contains c)

/-- Go `strings.Trim(s, cutset)`: drop the leading and the trailing bytes that
occur in `cutset`. -/
def Trim (s : Bytes) (cutset : Bytes) : Bytes :=
  TrimRight (TrimLeft s cutset) cutset

/-- Go `bytes.Split(s, []byte{sep})` / `strings.Split(s, sep)` for a one-byte
separator: the pieces of `s` between the occurrences of `sep`.  The result is
never empty; splitting the empty string gives one empty piece. -/
def Split : Bytes → Char → List Bytes
  | [], _ => [[]]
  | c :: cs, sep =>
    if c = sep then [] :: Split cs sep
    else
      match Split cs sep with
      | [] => [[c]]
      | l :: ls => (c :: l) :: ls

/-! ## Error values -/

/-- Go `error` values as the source builds them.  `terror.Errorf` and the
closures made by `mkInternalError` / `mkSendError` are declared outside
`analysis.go`; an error records which of them built it, with its format string
and the wrapped cause, and nothing is assumed about its text.  `ext` is an
error that comes from a collaborator.  What the two closures send to the
client when they are called is not part of the model. -/
inductive Err
  | ext (msg : String)
  | Errorf0 (format : String)
  | Errorf (format : String) (cause : Err)
  | internalError0 (format : String)
  | internalError (format : String) (cause : Err)
  | sendError (msg : String)
deriving DecidableEq, Repr

/-! ## Session stream -/

/-- The `pb.AnalysisResult` message. -/
structure AnalysisResult where
  UseDockerfile : Bool := false
  UsePythonRequirements : Bool := false
  NeedsGit : Bool := false
  NeedsLibGL : Bool := false
  NeedsLibGlib : Bool := false
deriving DecidableEq, Repr

/-- The `pb.ChoiceBool` message. -/
structure ChoiceBool where
  Value : Bool
  Title : String
  Description : String
  Affirmative : String
  Negative : String
deriving DecidableEq, Repr

/-- The variant carried by a `pb.ActReply`. -/
inductive ReplyVariant
  | empty
  | Log (text : Bytes)
  | Choice (c : ChoiceBool)
  | AnalysisResult (r : AnalysisResult)
deriving DecidableEq, Repr

/-- The `pb.ActReply` message sent from the server to the client. -/
structure ActReply where
  Source : String := ""
  Variant : ReplyVariant := ReplyVariant.empty
deriving DecidableEq, Repr

/-- The outbound half of the session stream: how many `Send` calls the code of
`analysis.go` made and which of its messages were delivered, in order. -/
structure Stream where
  calls : Nat := 0
  sent : List ActReply := []
deriving DecidableEq, Repr

/-- The outcome of `stream.Send`: `sendErr n` is the error (if any) returned by
the `n`-th call on this stream, counted from 0.  A failed call delivers
nothing. -/
def Stream.Send (sendErr : Nat → Option Err) (st : Stream) (m : ActReply) :
    Stream × Option Err :=
  match sendErr st.calls with
  | some e => ({ st with calls := st.calls + 1 }, some e)
  | none => ({ calls := st.calls + 1, sent := st.sent ++ [m] }, none)

/-! ## Log sink: `logWriter` -/

/-- The `logWriter` struct: the writer's fixed source label (its context and
stream are passed explicitly). -/
structure logWriter where
  source : String
deriving DecidableEq, Repr

/-- The cutset of the per-line trim in `logWriter.Write`: vertical tab, form
feed, carriage return. -/
def lineCutset : Bytes := [Char.ofNat 11, Char.ofNat 12, Char.ofNat 13]

/-- The `for _, line := range bytes.Split(p, ...)` loop of `logWriter.Write`:
send one log message per line and stop at the first failing send. -/
def logWriter.sendLines (sendErr : Nat → Option Err) (s : logWriter) :
    List Bytes → Stream → Stream × Option Err
  | [], st => (st, none)
  | line :: rest, st =>
    match st.Send sendErr { Source := s.source, Variant := ReplyVariant.Log (TrimRight line lineCutset) } with
    | (st', some e) => (st', some (Err.Errorf "stream Send: %w" e))
    | (st', none) => logWriter.sendLines sendErr s rest st'

/-- The method `logWriter.Write`: returns the byte count, the error and the
stream afterwards. -/
def logWriter.Write (sendErr : Nat → Option Err) (s : logWriter) (p : Bytes) (st : Stream) :
    (Nat × Option Err) × Stream :=
  let p := TrimRight p ['\n']
  match logWriter.sendLines sendErr s (Split p '\n') st with
  | (st', some e) => ((0, some e), st')
  | (st', none) => ((p.length, none), st')

/-! ## Process controller: `execProcess` -/

/-- The signals `execProcess` sends to the process. -/
inductive Signal
  | SIGINT
  | SIGTERM
  | SIGKILL
deriving DecidableEq, Repr

/-- The `pb.Choice` carried by a request: only the boolean variant exists. -/
structure Choice where
  Bool : Option ChoiceBool
deriving DecidableEq, Repr

/-- The `pb.ActReq` message sent from the client to the server. -/
structure ActReq where
  Cancel : Bool := false
  Choice : Option Choice := none
deriving DecidableEq, Repr

/-- The `recvReq` pair the receive loop puts on `recvChan`: the request (nil
when the receive failed) and the error. -/
structure recvReq where
  req : Option ActReq
  err : Option Err
deriving DecidableEq, Repr

/-- The nil-safe getter `(*pb.ActReq).GetCancel`. -/
def GetCancel : Option ActReq → Bool
  | none => false
  | some r => r.Cancel

/-- What one round of the `select` in `execProcess` receives: the result of
`pid.Wait` from `waitChan`, or the next client message from `recvChan`. -/
inductive Event
  | wait (err : Option Err)
  | recv (r : recvReq)
deriving DecidableEq, Repr

/-- The state of the `execProcess` loop: the local `cancelCount`, the signals
delivered to the process so far, the return value once the loop has
returned (`none` while it is still waiting in `select`; `some none` is a nil
error), and how many messages the loop took from `recvChan`. -/
structure ExecState where
  cancelCount : Nat := 0
  signals : List Signal := []
  received : Nat := 0
  result : Option (Option Err) := none
deriving DecidableEq, Repr

/-- A call `pid.Signal(ctx, sig)` in `execProcess`: `sigErr n sig` is the error
(if any) of the `n`-th signal call.  On success the signal is delivered and
the switch falls through to `cancelCount += 1`. -/
def ExecState.signal (sigErr : Nat → Signal → Option Err) (st : ExecState) (sig : Signal) :
    ExecState :=
  match sigErr st.cancelCount sig with
  | some e => { st with result := some (some (Err.Errorf "pid Signal: %w" e)) }
  | none => { st with signals := st.signals ++ [sig], cancelCount := st.cancelCount + 1 }

/-- One iteration of the `for { select { ... } }` loop of `execProcess`. -/
def ExecState.step (sigErr : Nat → Signal → Option Err) (st : ExecState) : Event → ExecState
  | Event.wait err =>
    match err with
    | some e => { st with result := some (some e) }
    | none => { st with result := some none }
  | Event.recv r =>
    let st := { st with received := st.received + 1 }
    match r.err with
    | some e => { st with result := some (some e) }
    | none =>
      if GetCancel r.req then
        match st.cancelCount with
        | 0 => st.signal sigErr Signal.SIGINT
        | 1 => st.signal sigErr Signal.SIGTERM
        | 2 => st.signal sigErr Signal.SIGKILL
        | _ => { st with result := some (some (Err.Errorf0 "more than 3 cancel attempts")) }
      else { st with result := some (some (Err.Errorf0 "Unexpected message")) }

/-- The loop of `execProcess` run over the events its `select` receives, in
order; events after the loop has returned are not consumed. -/
def ExecState.run (sigErr : Nat → Signal → Option Err) : ExecState → List Event → ExecState
  | st, [] => st
  | st, ev :: evs =>
    match st.result with
    | some _ => st
    | none => ExecState.run sigErr (st.step sigErr ev) evs

/-- The function `execProcess`: `start` is the error (if any) of `ctr.Start`;
when the process was started the loop runs from `cancelCount := 0` over the
events its `select` receives. -/
def execProcess (start : Option Err) (sigErr : Nat → Signal → Option Err)
    (events : List Event) : ExecState :=
  match start with
  | some e => { result := some (some (Err.Errorf "ctr Start: %w" e)) }
  | none => ExecState.run sigErr {} events

/-- A cancellation message as delivered on `recvChan`. -/
def cancelMsg : Event := Event.recv { req := some { Cancel := true }, err := none }

/-! ## Build status tracker: `buildkitStatusSender` -/

/-- A build step identity, `digest.Digest` (a string). -/
abbrev Digest := String

/-- A `time.Time`, identified with its representation: an instant in
nanoseconds. -/
abbrev Time := Int

/-- The fields of `client.Vertex` the tracker reads. -/
structure Vertex where
  Digest : Digest
  Name : Bytes
  Started : Option Time := none
  Completed : Option Time := none
  Cached : Bool := false
deriving DecidableEq, Repr

/-- The fields of `client.VertexLog` the tracker reads. -/
structure VertexLog where
  Vertex : Digest
  Timestamp : Time
  Data : Bytes
deriving DecidableEq, Repr

/-- A `client.VertexWarning`; the tracker only prints it. -/
structure VertexWarning where
  Vertex : Digest
  Short : Bytes
deriving DecidableEq, Repr

/-- The fields of `client.SolveStatus` the tracker reads: one status batch. -/
structure SolveStatus where
  Vertexes : List Vertex := []
  Logs : List VertexLog := []
  Warnings : List VertexWarning := []
deriving DecidableEq, Repr

/-- One call `sendLog("buildkit", fmt.Sprintf(...))` of the tracker, kept as
the arguments of its `Sprintf`: a warning line, a step line (with the duration
when the format with `%.2fs` is used), or a log line. -/
inductive StatusLine
  | warning (w : VertexWarning)
  | vertex (vertNo : Int) (state : String) (duration : Option Int) (name : Bytes)
  | log (vertNo : Int) (line : Bytes)
deriving DecidableEq, Repr

/-- The map `verts` from step digest to display number, as the list of its
entries in insertion order. -/
abbrev VertMap := List (Digest × Int)

/-- The lines 612-616: look the digest up and give it the number
`len(verts) + 1` when it is not in the map yet. -/
def vertNumber (verts : VertMap) (d : Digest) : VertMap × Int :=
  match verts.lookup d with
  | some n => (verts, n)
  | none => (verts ++ [(d, (verts.length : Int) + 1)], (verts.length : Int) + 1)

/-- The status word of a step, lines 618-627. -/
def vertexState (vert : Vertex) : String :=
  let state := "NEW"
  let state := if vert.Started.isSome then "START" else state
  if vert.Cached then "CACHED"
  else if vert.Completed.isSome then "DONE"
  else state

/-- Go `Time.Sub`: the difference in nanoseconds, saturated to the range of
`time.Duration` (a 64-bit integer). -/
def TimeSub (t u : Time) : Int :=
  max (-(2 : Int) ^ 63) (min ((2 : Int) ^ 63 - 1) (t - u))

/-- The duration of a step in nanoseconds, lines 629-632: zero unless both
times are present. -/
def vertexDuration (vert : Vertex) : Int :=
  match vert.Completed, vert.Started with
  | some c, some s => TimeSub c s
  | _, _ => 0

/-- The line sent for one step, lines 618-638.  The test `duration < 0.01` on
the seconds of the duration holds exactly when the duration is below
10,000,000 nanoseconds. -/
def vertexLine (vertNo : Int) (vert : Vertex) : StatusLine :=
  if vertexDuration vert < 10000000 then
    StatusLine.vertex vertNo (vertexState vert) none vert.Name
  else
    StatusLine.vertex vertNo (vertexState vert) (some (vertexDuration vert)) vert.Name

/-- The loop over `msg.Vertexes`: the map afterwards and the lines sent. -/
def vertexLoop : VertMap → List Vertex → VertMap × List StatusLine
  | verts, [] => (verts, [])
  | verts, vert :: rest =>
    let (verts1, vertNo) := vertNumber verts vert.Digest
    let (verts2, lines) := vertexLoop verts1 rest
    (verts2, vertexLine vertNo vert :: lines)

/-- The display number of a log record, lines 643-646: the number in the map,
or -1. -/
def logNumber (verts : VertMap) (d : Digest) : Int :=
  match verts.lookup d with
  | some n => n
  | none => -1

/-- The test of line 648: the record repeats the step and the timestamp of
`prevLog`. -/
def isDuplicate (prevLog : Option VertexLog) (log : VertexLog) : Bool :=
  match prevLog with
  | none => false
  | some prev => prev.Vertex == log.Vertex && prev.Timestamp == log.Timestamp

/-- The lines sent for one log record that is not skipped, lines 653-656. -/
def logLines (verts : VertMap) (log : VertexLog) : List StatusLine :=
  (Split (Trim log.Data ['\r', '\n']) '\n').map (StatusLine.log (logNumber verts log.Vertex))

/-- The loop over `msg.Logs`, lines 641-657, from a given `prevLog`. -/
def logLoop (verts : VertMap) : Option VertexLog → List VertexLog → List StatusLine
  | _, [] => []
  | prevLog, log :: rest =>
    if isDuplicate prevLog log then logLoop verts prevLog rest
    else logLines verts log ++ logLoop verts (some log) rest

/-- The body of `for msg := range statusChan`: warnings, then steps, then
logs. -/
def handleStatus (verts : VertMap) (msg : SolveStatus) : VertMap × List StatusLine :=
  let (verts1, lines) := vertexLoop verts msg.Vertexes
  (verts1, msg.Warnings.map StatusLine.warning ++ lines ++ logLoop verts1 none msg.Logs)

/-- The goroutine of `buildkitStatusSender` from a given map, over the batches
received on `statusChan`: the map afterwards and all lines sent, in order. -/
def statusLoop : VertMap → List SolveStatus → VertMap × List StatusLine
  | verts, [] => (verts, [])
  | verts, msg :: rest =>
    let (verts1, lines) := handleStatus verts msg
    let (verts2, more) := statusLoop verts1 rest
    (verts2, lines ++ more)

/-- The tracker `buildkitStatusSender`: the lines sent for the batches received
on `statusChan`, starting from an empty map. -/
def buildkitStatusSender (msgs : List SolveStatus) : List StatusLine :=
  (statusLoop [] msgs).2

/-- Go `fmt.Sprintf("%6s", s)`: pad on the left with spaces to width 6. -/
def pad6 (s : Bytes) : Bytes :=
  List.replicate (6 - s.length) ' ' ++ s

/-- The text of a line.  The step and log formats are `#%d %6s %s`; the step
format with a duration is `#%d %6s %.2fs %s`.  The renderings of a warning
(`%v`) and of the seconds (`%.2f`) belong to `fmt` and are parameters. -/
def StatusLine.text (fmtWarning : VertexWarning → Bytes) (fmtSeconds : Int → Bytes) :
    StatusLine → Bytes
  | StatusLine.warning w => "Warning: ".toList ++ fmtWarning w
  | StatusLine.vertex vertNo state none name =>
    '#' :: (toString vertNo).toList ++ ' ' :: pad6 state.toList ++ ' ' :: name
  | StatusLine.vertex vertNo state (some d) name =>
    '#' :: (toString vertNo).toList ++ ' ' :: pad6 state.toList ++ ' ' :: fmtSeconds d
      ++ 's' :: ' ' :: name
  | StatusLine.log vertNo line =>
    '#' :: (toString vertNo).toList ++ ' ' :: pad6 "LOG".toList ++ ' ' :: line

/-! ## Requirements scan of `Srv.Analysis` -/

/-- The class `\s` of Go `regexp` (RE2 syntax): tab, newline, form feed,
carriage return, space. -/
def isSpace (c : Char) : Bool :=
  c == '\t' || c == '\n' || c == Char.ofNat 12 || c == '\r' || c == ' '

/-- The ASCII word characters of `\b`: letters, digits, underscore. -/
def isWordChar (c : Char) : Bool :=
  c.isAlphanum || c == '_'

/-- Whether the position next to an optional byte is on a word character
(false at either end of the text). -/
def isWordAt : Option Char → Bool
  | none => false
  | some c => isWordChar c

/-- The pieces of the two patterns compiled by `regexp.MustCompile`: a literal
byte, a class repeated one or more times, a class repeated zero or more times,
the anchor `^` (beginning of text) and the ASCII word boundary. -/
inductive Node
  | lit (c : Char)
  | plus (cls : Char → Bool)
  | star (cls : Char → Bool)
  | beginText
  | wordBoundary

/-- A compiled pattern: a concatenation of pieces. -/
abbrev Regexp := List Node

/-- Zero or more bytes of the class, then the rest of the pattern (`k`), at a
position whose previous byte is given. -/
def starLoop (cls : Char → Bool) (k : Option Char → Bytes → Bool) : Option Char → Bytes → Bool
  | prev, [] => k prev []
  | prev, d :: ds => k prev (d :: ds) || (cls d && starLoop cls k (some d) ds)

/-- Whether the pattern matches at the current position: `prev` is the byte
before the position (none at the beginning of the text), the list is the text
from the position on. -/
def matchHere : Regexp → Option Char → Bytes → Bool
  | [] => fun _ _ => true
  | Node.lit c :: re => fun _ s =>
    match s with
    | [] => false
    | d :: ds => d == c && matchHere re (some d) ds
  | Node.plus cls :: re => fun _ s =>
    match s with
    | [] => false
    | d :: ds => cls d && starLoop cls (matchHere re) (some d) ds
  | Node.star cls :: re => starLoop cls (matchHere re)
  | Node.beginText :: re => fun prev s => prev.isNone && matchHere re prev s
  | Node.wordBoundary :: re => fun prev s =>
    (isWordAt prev != isWordAt s.head?) && matchHere re prev s

/-- The unanchored search of `MatchString`: try every position from the
current one on. -/
def searchFrom (re : Regexp) : Option Char → Bytes → Bool
  | prev, [] => matchHere re prev []
  | prev, d :: ds => matchHere re prev (d :: ds) || searchFrom re (some d) ds

/-- Go `(*Regexp).MatchString`: whether the text contains a match. -/
def MatchString (re : Regexp) (s : Bytes) : Bool :=
  searchFrom re none s

/-- The pattern `@\s+git` (line 438). -/
def gitRegex : Regexp :=
  [Node.lit '@', Node.plus isSpace, Node.lit 'g', Node.lit 'i', Node.lit 't']

/-- The pattern `^\s*opencv-python\b` (line 439). -/
def opencvRegex : Regexp :=
  [Node.beginText, Node.star isSpace] ++ "opencv-python".toList.map Node.lit ++ [Node.wordBoundary]

/-- Go `bufio.MaxScanTokenSize`, the buffer limit of a `bufio.Scanner` made by
`bufio.NewScanner`. -/
def MaxScanTokenSize : Nat := 64 * 1024

/-- The helper `dropCR` of `bufio.ScanLines`: drop one trailing carriage
return. -/
def dropCR (data : Bytes) : Bytes :=
  if data.getLast? = some '\r' then data.dropLast else data

/-- The tokens of a `bufio.Scanner` with the split function `ScanLines` over
the bytes of a file, until `Scan` returns false.  `cur` holds the bytes of the
line read so far, last byte first.  A line ends at a newline or at the end of
the file; an empty last line gives no token.  A line that fills the buffer
(`max` bytes without a newline) makes `Scan` fail with `ErrTooLong` and ends
the scan. -/
def scanTokens (max : Nat) : Bytes → Bytes → List Bytes
  | cur, [] =>
    if cur = [] then []
    else if cur.length < max then [dropCR cur.reverse]
    else []
  | cur, c :: cs =>
    if c = '\n' then
      if cur.length < max then dropCR cur.reverse :: scanTokens max [] cs
      else []
    else scanTokens max (c :: cur) cs

/-- The lines the loop `for lines.Scan()` sees, `lines.Text()` each. -/
def scannerLines (content : Bytes) : List Bytes :=
  scanTokens MaxScanTokenSize [] content

/-- The body of the loop `for lines.Scan()`, lines 442-451. -/
def scanLine (a : AnalysisResult) (line : Bytes) : AnalysisResult :=
  let a := if MatchString gitRegex line then { a with NeedsGit := true } else a
  if MatchString opencvRegex line then { a with NeedsLibGL := true, NeedsLibGlib := true } else a

/-- The lines 428-452 of `Srv.Analysis` on the bytes of `requirements.txt`:
the `AnalysisResult` is set to `UsePythonRequirements` and the scan sets the
dependency flags. -/
def scanRequirements (content : Bytes) : AnalysisResult :=
  (scannerLines content).foldl scanLine { UsePythonRequirements := true }

/-! ## Strategy selection: `Srv.useDockerfile` and `Srv.Analysis` -/

/-- The result of `os.Stat` on a path: the file is there, the error says it
does not exist (`os.IsNotExist`), or another error. -/
inductive StatResult
  | found
  | notExist
  | failed (err : Err)
deriving DecidableEq, Repr

/-- The file system calls of `Srv.Analysis`, in the source root: `os.Stat` on
`Dockerfile`; on `requirements.txt`, `os.Stat`, `os.OpenFile` with
`O_CREATE|O_WRONLY`, `Write`, `os.OpenFile` with `O_RDONLY`, and the reads of
the scanner; on the source root as a whole, `fsutil.NewFS(s.SrcDir)` and the
hand-over of that file system to `c.Build` as its `LocalMounts` under the
given names, through which the build engine reads the files its build asks
for. -/
inductive FsOp
  | statDockerfile
  | statRequirements
  | createRequirements
  | writeRequirements (data : Bytes)
  | openRequirements
  | readRequirements
  | newFS
  | localMounts (names : List String)
deriving DecidableEq, Repr

/-- The three calls of `c.Build` in `Srv.Analysis`: the Dockerfile build, the
build that guesses `requirements.txt`, and the Python build. -/
inductive BuildKind
  | dockerfile
  | guess
  | python
deriving DecidableEq, Repr

/-- The container process as `execProcess` sees it: the error of `ctr.Start`,
the errors of `pid.Signal`, and when `pid.Wait` returns: `some (n, e)` when
`waitChan` delivers `e` after the `select` has taken up to `n` client messages,
`none` when the process never exits. -/
structure ProcEnv where
  start : Option Err := none
  sigErr : Nat → Signal → Option Err := fun _ _ => none
  exit : Option (Nat × Option Err) := some (0, none)

/-- The answers of the collaborators during one `c.Build`: the errors of
`fsutil.NewFS`, of `Marshal`, of `c.Solve`, of `c.NewContainer`, the process,
the result of `r.Ref.ReadFile`, and the error of `c.Build` itself when its
callback returned no error. -/
structure BuildEnv where
  newFS : Option Err := none
  marshal : Option Err := none
  solve : Option Err := none
  newContainer : Option Err := none
  proc : ProcEnv := {}
  readFile : Except Err Bytes := Except.ok []
  build : Option Err := none

/-- The collaborators of one session: the result of `s.checkPeerAuth`, the
error of `client.New`, the results of `os.Stat` on `Dockerfile` and of a failing
`os.Stat` on `requirements.txt`, the errors of the calls that open and write
`requirements.txt`, the errors of `stream.Send`, and the build engine during
each of the three builds. -/
structure Env where
  checkPeerAuth : Bool × Option Err := (true, none)
  clientNew : Option Err := none
  statDockerfile : StatResult := StatResult.notExist
  statRequirementsErr : Option Err := none
  createErr : Option Err := none
  writeErr : Option Err := none
  openErr : Option Err := none
  sendErr : Nat → Option Err := fun _ => none
  dockerBuild : BuildEnv := {}
  guessBuild : BuildEnv := {}
  pythonBuild : BuildEnv := {}

/-- The state one session acts on: the outbound stream, `s.push.analysis`, the
messages `recvChan` has still to deliver, the bytes of `requirements.txt` in
the source root (`none` when there is no such file), and what the session has
done so far: its file system calls, the builds it started and the signals it
delivered. -/
structure Session where
  stream : Stream := {}
  analysis : Option AnalysisResult := none
  inbox : List recvReq := []
  requirements : Option Bytes := none
  fsOps : List FsOp := []
  builds : List BuildKind := []
  signals : List Signal := []
deriving DecidableEq, Repr

/-- How a call ends: it returns an error value (`none` is nil), it waits
forever on `recvChan`, or it dereferences a nil request. -/
inductive Outcome
  | returned (err : Option Err)
  | blocked
  | nilDeref
deriving DecidableEq, Repr

/-- A call `stream.Send` within the session. -/
def Session.Send (env : Env) (s : Session) (m : ActReply) : Session × Option Err :=
  let (st, e) := s.stream.Send env.sendErr m
  ({ s with stream := st }, e)

/-- Record a file system call. -/
def Session.fs (s : Session) (op : FsOp) : Session :=
  { s with fsOps := s.fsOps ++ [op] }

/-- The method `Srv.useDockerfile`, lines 41-67: the session afterwards, the
boolean and the error. -/
def useDockerfile (env : Env) (s : Session) : Session × Bool × Option Err :=
  let s := s.fs FsOp.statDockerfile
  match env.statDockerfile with
  | StatResult.failed e => (s, false, some (Err.internalError "stat Dockerfile: %w" e))
  | StatResult.notExist => (s, false, none)
  | StatResult.found =>
    match s.Send env { Source := "ayup", Variant := ReplyVariant.Log "Found Dockerfile, will use it".toList } with
    | (s, some e) => (s, false, some (Err.internalError "stream send: %w" e))
    | (s, none) => ({ s with analysis := some { UseDockerfile := true } }, true, none)

/-- A call of `execProcess` within the session: the `select` receives the
client messages still to be delivered and the result of `pid.Wait`. -/
def Session.execProcess (p : ProcEnv) (s : Session) : Session × Outcome :=
  let events :=
    match p.exit with
    | some (n, e) => (s.inbox.take n).map Event.recv ++ [Event.wait e]
    | none => s.inbox.map Event.recv
  let st := Ayup.execProcess p.start p.sigErr events
  let s := { s with inbox := s.inbox.drop st.received, signals := s.signals ++ st.signals }
  match st.result with
  | some err => (s, Outcome.returned err)
  | none => (s, Outcome.blocked)

/-- A call `c.Build(ctx, opt, "ayup", b, statusChan)`: the build engine runs the
callback `b` once; an error of the callback is the error of the build. -/
def Session.Build (kind : BuildKind) (benv : BuildEnv) (b : Session → Session × Outcome)
    (s : Session) : Session × Outcome :=
  match b { s with builds := s.builds ++ [kind] } with
  | (s, Outcome.returned none) => (s, Outcome.returned benv.build)
  | (s, out) => (s, out)

/-- The callback `b` of the Dockerfile build, lines 254-281. -/
def dockerfileCallback (benv : BuildEnv) (s : Session) : Session × Outcome :=
  match benv.solve with
  | some e => (s, Outcome.returned (some (Err.internalError "gateway client solve: %w" e)))
  | none =>
    match benv.newContainer with
    | some e => (s, Outcome.returned (some (Err.internalError "gateway client NewContainer: %w" e)))
    | none => s.execProcess benv.proc

/-- The branch of `Srv.Analysis` taken when `useDockerfile` returned true,
lines 249-308. -/
def analysisDockerfile (env : Env) (s : Session) : Session × Outcome :=
  let s := s.fs FsOp.newFS
  match env.dockerBuild.newFS with
  | some e => (s, Outcome.returned (some (Err.internalError "fsutil newfs: %w" e)))
  | none =>
    let s := s.fs (FsOp.localMounts ["dockerfile", "context"])
    match s.Build BuildKind.dockerfile env.dockerBuild (dockerfileCallback env.dockerBuild) with
    | (s, Outcome.returned (some e)) => (s, Outcome.returned (some (Err.internalError "build: %w" e)))
    | (s, Outcome.returned none) =>
      match s.Send env { Variant := ReplyVariant.AnalysisResult { UseDockerfile := true } } with
      | (s, some e) => (s, Outcome.returned (some (Err.Errorf "stream Send: %w" e)))
      | (s, none) => (s, Outcome.returned none)
    | (s, out) => (s, out)

/-- The choice message sent when there is no `requirements.txt`,
lines 320-335. -/
def guessChoice : ActReply :=
  { Source := "ayup",
    Variant := ReplyVariant.Choice {
      Value := true,
      Title := "No requirements.txt; try guessing it?",
      Description := "Guess what dependencies the program has by inspecting the source code.",
      Affirmative := "Yes, guess",
      Negative := "No, I'll make it" } }

/-- The nil-safe getter chain `r.req.Choice.GetBool()`. -/
def GetBool : Option Choice → Option ChoiceBool
  | none => none
  | some c => c.Bool

/-- The callback `b` of the build that guesses `requirements.txt`,
lines 372-398: solve, read the produced file, create `requirements.txt` in the
source root and write the bytes to it. -/
def guessCallback (env : Env) (s : Session) : Session × Outcome :=
  match env.guessBuild.solve with
  | some e => (s, Outcome.returned (some (Err.internalError "client solve: %w" e)))
  | none =>
    match env.guessBuild.readFile with
    | Except.error e => (s, Outcome.returned (some (Err.Errorf "ref readfile: %w" e)))
    | Except.ok reqs =>
      let s := s.fs FsOp.createRequirements
      match env.createErr with
      | some e => (s, Outcome.returned (some (Err.Errorf "openfile requirements: %w" e)))
      | none =>
        let old := s.requirements.getD []
        let s := { s with requirements := some old }
        let s := s.fs (FsOp.writeRequirements reqs)
        match env.writeErr with
        | some e => (s, Outcome.returned (some (Err.Errorf "requirementsFile write: %w" e)))
        | none =>
          ({ s with requirements := some (reqs ++ old.drop reqs.length) }, Outcome.returned none)

/-- The branch of `Srv.Analysis` taken when `os.Stat` says there is no
`requirements.txt`, lines 319-414: `none` as the outcome means that the branch
is done and the function goes on at line 428. -/
def analysisGuess (env : Env) (s : Session) : Session × Option Outcome :=
  match s.Send env guessChoice with
  | (s, some e) => (s, some (Outcome.returned (some (Err.internalError "stream send: %w" e))))
  | (s, none) =>
    match s.inbox with
    | [] => (s, some Outcome.blocked)
    | r :: inbox =>
      let s := { s with inbox := inbox }
      match r.err with
      | some e => (s, some (Outcome.returned (some (Err.internalError "stream recv: %w" e))))
      | none =>
        match r.req with
        | none => (s, some Outcome.nilDeref)
        | some req =>
          if req.Cancel then (s, some (Outcome.returned (some (Err.sendError "analysis canceled"))))
          else
            match GetBool req.Choice with
            | none =>
              (s, some (Outcome.returned (some (Err.sendError "expected choice for requirements.txt"))))
            | some choice =>
              if !choice.Value then
                (s, some (Outcome.returned (some (Err.sendError
                  "can't continue without requirements.txt; please provide one!"))))
              else
                match env.guessBuild.marshal with
                | some e => (s, some (Outcome.returned (some (Err.internalError "marshal: %w" e))))
                | none =>
                  let s := s.fs FsOp.newFS
                  match env.guessBuild.newFS with
                  | some e => (s, some (Outcome.returned (some (Err.internalError "fsutil newfs: %w" e))))
                  | none =>
                    let s := s.fs (FsOp.localMounts ["context"])
                    match s.Build BuildKind.guess env.guessBuild (guessCallback env) with
                    | (s, Outcome.returned (some e)) =>
                      (s, some (Outcome.returned (some (Err.internalError "build: %w" e))))
                    | (s, Outcome.returned none) => (s, none)
                    | (s, out) => (s, some out)

/-- The callback `b` of the Python build, lines 460-493. -/
def pythonCallback (benv : BuildEnv) (s : Session) : Session × Outcome :=
  match benv.marshal with
  | some e =>
    (s, Outcome.returned (some (Err.internalError "mkllb: %w" (Err.Errorf "marshal: %w" e))))
  | none =>
    match benv.solve with
    | some e => (s, Outcome.returned (some (Err.internalError "client solve: %w" e)))
    | none =>
      match benv.newContainer with
      | some e =>
        (s, Outcome.returned (some (Err.internalError "gateway client NewContainer: %w" e)))
      | none => s.execProcess benv.proc

/-- The rest of `Srv.Analysis` once `requirements.txt` is there, lines 428-521:
set the analysis result, scan the file, build and run. -/
def analysisRequirements (env : Env) (s : Session) : Session × Outcome :=
  let s := { s with analysis := some { UsePythonRequirements := true } }
  let s := s.fs FsOp.openRequirements
  match env.openErr, s.requirements with
  | some e, _ => (s, Outcome.returned (some (Err.internalError "open file: %w" e)))
  | none, none =>
    (s, Outcome.returned (some (Err.internalError "open file: %w" (Err.ext "file does not exist"))))
  | none, some content =>
    let s := s.fs FsOp.readRequirements
    let s := { s with analysis := some (scanRequirements content) }
    let s := s.fs FsOp.newFS
    match env.pythonBuild.newFS with
    | some e => (s, Outcome.returned (some (Err.internalError "fsutil newfs: %w" e)))
    | none =>
      let s := s.fs (FsOp.localMounts ["context"])
      match s.Build BuildKind.python env.pythonBuild (pythonCallback env.pythonBuild) with
      | (s, Outcome.returned (some e)) =>
        (s, Outcome.returned (some (Err.internalError "client build: %w" e)))
      | (s, Outcome.returned none) =>
        match s.Send env {} with
        | (s, some e) => (s, Outcome.returned (some (Err.Errorf "stream send: %w" e)))
        | (s, none) => (s, Outcome.returned none)
      | (s, out) => (s, out)

/-- The result of `os.Stat(requirements_path)`. -/
def statRequirements (env : Env) (s : Session) : StatResult :=
  match env.statRequirementsErr with
  | some e => StatResult.failed e
  | none => if s.requirements.isSome then StatResult.found else StatResult.notExist

/-- The strategy selection of `Srv.Analysis`, lines 243-521, after the initial
message was accepted. -/
def analysisStrategy (env : Env) (s : Session) : Session × Outcome :=
  match useDockerfile env s with
  | (s, _, some e) => (s, Outcome.returned (some e))
  | (s, true, none) => analysisDockerfile env s
  | (s, false, none) =>
    let s := s.fs FsOp.statRequirements
    match statRequirements env s with
    | StatResult.failed e =>
      (s, Outcome.returned (some (Err.internalError "stat requirements.txt: %w" e)))
    | StatResult.notExist =>
      match analysisGuess env s with
      | (s, some out) => (s, out)
      | (s, none) => analysisRequirements env s
    | StatResult.found =>
      match s.Send env { Source := "Ayup", Variant := ReplyVariant.Log "requirements.txt found".toList } with
      | (s, some e) => (s, Outcome.returned (some (Err.internalError "stream send: %w" e)))
      | (s, none) => analysisRequirements env s

/-- The method `Srv.Analysis` on one session: authorization, the build engine
client, the initial message, then the strategy selection. -/
def Analysis (env : Env) (s : Session) : Session × Outcome :=
  match env.checkPeerAuth with
  | (_, some e) => (s, Outcome.returned (some (Err.internalError "checkPeerAuth: %w" e)))
  | (false, none) => (s, Outcome.returned (some (Err.sendError "Not authorized")))
  | (true, none) =>
    match env.clientNew with
    | some e => (s, Outcome.returned (some (Err.internalError "client new: %w" e)))
    | none =>
      match s.inbox with
      | [] => (s, Outcome.blocked)
      | r :: inbox =>
        let s := { s with inbox := inbox }
        match r.err with
        | some e => (s, Outcome.returned (some (Err.internalError "stream recv: %w" e)))
        | none =>
          match r.req with
          | none => (s, Outcome.nilDeref)
          | some req =>
            if req.Cancel then (s, Outcome.returned (some (Err.sendError "analysis canceled")))
            else if req.Choice.isSome then
              (s, Outcome.returned (some (Err.sendError "premature choice")))
            else analysisStrategy env s

/-! ## Build plan generator: `Srv.MkLlb` -/

/-- A cache mount of a run step: `llb.AddMount(path, llb.Scratch(),
llb.AsPersistentCacheDir(id, sharing))`; `locked` says that the sharing mode is
`llb.CacheMountLocked`. -/
structure CacheMount where
  path : String
  id : String
  locked : Bool
deriving DecidableEq, Repr

/-- The operations `analysis.go` puts on an `llb.State`, in the order it
applies them: the base image, an environment variable, the file actions
`Mkdir`, `Rm` and `Copy` (from the `llb.Local` source of the given name and
exclude patterns), the working directory, and a run step with the command line
given to `llb.Shlex` and its cache mount. -/
inductive LlbOp
  | Image (ref : String)
  | AddEnv (key value : String)
  | Mkdir (path : String) (mode : Nat)
  | Dir (path : String)
  | Rm (path : String)
  | Copy (localName : String) (excludePatterns : List String) (src dest : String)
  | Run (shlex : String) (mount : CacheMount)
deriving DecidableEq, Repr

/-- An `llb.State` as the list of the operations applied to it, first one
first. -/
abbrev LlbState := List LlbOp

/-- The function `pythonSlimLlb`, lines 523-529. -/
def pythonSlimLlb : LlbState :=
  [LlbOp.Image "docker.io/library/python:3.12-slim",
   LlbOp.AddEnv "PYTHONUNBUFFERED" "True",
   LlbOp.Mkdir "/app" 0o755,
   LlbOp.Dir "/app",
   LlbOp.Rm "/etc/apt/apt.conf.d/docker-clean"]

/-- The mount `cachePipMnt` of `pythonSlimPip` and `MkLlb`. -/
def cachePipMnt : CacheMount :=
  { path := "/root/.cache/pip", id := "/root/.cache/pip", locked := true }

/-- The mount `cacheAptMnt` of `MkLlb`. -/
def cacheAptMnt : CacheMount :=
  { path := "/var/cache/apt", id := "/var/cache/apt", locked := true }

/-- The function `pythonSlimPip`, lines 531-540: a run step `pip <args>`. -/
def pythonSlimPip (st : LlbState) (args : String) : LlbState :=
  st ++ [LlbOp.Run ("pip " ++ args) cachePipMnt]

/-- The slice `aptDeps` of `MkLlb` after the three appends, lines 546-557. -/
def aptDeps (analysis : AnalysisResult) : List String :=
  let aptDeps : List String := []
  let aptDeps := if analysis.NeedsGit then aptDeps ++ ["git"] else aptDeps
  let aptDeps := if analysis.NeedsLibGL then aptDeps ++ ["libgl1"] else aptDeps
  let aptDeps := if analysis.NeedsLibGlib then aptDeps ++ ["libglib2.0-0"] else aptDeps
  aptDeps

/-- The command line of the install step, line 569: the format
`dash -c "apt update && apt install -y %s"` applied to the packages joined by
single spaces (`strings.Join`). -/
def aptInstall (packages : List String) : String :=
  "dash -c \"apt update && apt install -y " ++ " ".intercalate packages ++ "\""

/-- The state built by `Srv.MkLlb` before it is marshalled, lines 543-583, for
the `AnalysisResult` in `s.push.analysis`. -/
def MkLlbState (analysis : AnalysisResult) : LlbState :=
  let st := pythonSlimLlb
  let st :=
    if (aptDeps analysis).length > 0 then
      st ++ [LlbOp.Run (aptInstall (aptDeps analysis)) cacheAptMnt]
    else st
  let st := st ++ [LlbOp.Copy "context" [".venv", ".git"] "requirements.txt" "."]
  st ++ [LlbOp.Run "pip install -r requirements.txt" cachePipMnt,
         LlbOp.Copy "context" [".venv", ".git"] "." "."]

/-- The method `Srv.MkLlb`: `marshal` is the error (if any) of `st.Marshal`;
the definition returned is identified with the state it was marshalled
from. -/
def MkLlb (marshal : Option Err) (analysis : AnalysisResult) : Except Err LlbState :=
  match marshal with
  | some e => Except.error (Err.Errorf "marshal: %w" e)
  | none => Except.ok (MkLlbState analysis)

/-! ## The specification's notions, for comparison with the code -/

/-- The event is a cancellation message, received without error. -/
def isCancel (ev : Event) : Prop :=
  ∃ r : recvReq, ev = Event.recv r ∧ r.err = none ∧ GetCancel r.req = true

/-- The signal the specification prescribes for the `k`-th cancellation,
counted from 1: interrupt, terminate, kill, and none from the fourth on. -/
def escalation : Nat → Option Signal
  | 1 => some Signal.SIGINT
  | 2 => some Signal.SIGTERM
  | 3 => some Signal.SIGKILL
  | _ => none

/-- The digests of the steps reported by a sequence of status batches, in the
order of the batches and of their `Vertexes` lists. -/
def reportedDigests (msgs : List SolveStatus) : List Digest :=
  msgs.flatMap (fun msg => msg.Vertexes.map (fun v => v.Digest))

/-- One step of `firstSeen`: add the digest at the end unless it is there. -/
def seenStep (seen : List Digest) (d : Digest) : List Digest :=
  if d ∈ seen then seen else seen ++ [d]

/-- The distinct digests of a list in order of first appearance. -/
def firstSeen (ds : List Digest) : List Digest :=
  ds.foldl seenStep []

/-- The map `verts` numbers the digests `ks` in order from 1. -/
def Numbered (verts : VertMap) (ks : List Digest) : Prop :=
  verts.map Prod.fst = ks ∧ ks.Nodup ∧
  ∀ d ∈ ks, verts.lookup d = some ((ks.indexOf d : Int) + 1)

/-- The bytes of a write made of the given lines, each terminated by a
newline. -/
def terminated (ls : List Bytes) : Bytes :=
  ls.flatMap (fun l => l ++ ['\n'])

/-- The display numbers carried by the step lines among the lines sent. -/
def vertexNumbers : List StatusLine → List Int
  | [] => []
  | StatusLine.vertex vertNo _ _ _ :: rest => vertNo :: vertexNumbers rest
  | _ :: rest => vertexNumbers rest

/-- The status words carried by the step lines among the lines sent. -/
def vertexStates : List StatusLine → List String
  | [] => []
  | StatusLine.vertex _ state _ _ :: rest => state :: vertexStates rest
  | _ :: rest => vertexStates rest

/-- The status word as the specification gives it: `CACHED` if the step was
served from cache; otherwise `DONE` if a completion time is present; otherwise
`START` if a start time is present; otherwise `NEW`. -/
def statusWord (vert : Vertex) : String :=
  if vert.Cached = true then "CACHED"
  else if vert.Completed ≠ none then "DONE"
  else if vert.Started ≠ none then "START"
  else "NEW"

/-- The outcome of the test of line 648 for every record of the loop over
`msg.Logs`, in order: true when the record is skipped.  The recursion is that
of `logLoop`. -/
def logSkips : Option VertexLog → List VertexLog → List Bool
  | _, [] => []
  | prevLog, log :: rest =>
    if isDuplicate prevLog log then true :: logSkips prevLog rest
    else false :: logSkips (some log) rest

/-- The specification's rule for skipping the records of one batch: a record
is skipped exactly when the record immediately before it in the batch has the
same step and the same timestamp; the first record is never skipped. -/
def repeatsPrevious : List VertexLog → List Bool
  | [] => []
  | first :: rest =>
    false :: List.zipWith (fun before log =>
      decide (before.Vertex = log.Vertex ∧ before.Timestamp = log.Timestamp)) (first :: rest) rest

/-- The records of a batch that are not skipped according to a list of skip
outcomes. -/
def keptLogs (logs : List VertexLog) (skips : List Bool) : List VertexLog :=
  ((logs.zip skips).filter (fun p => !p.2)).map (fun p => p.1)

/-- The lines of a log record as the claim words them: only the trailing
newlines and carriage returns are removed before the split. -/
def logLinesTrailingOnly (verts : VertMap) (log : VertexLog) : List StatusLine :=
  (Split (TrimRight log.Data ['\r', '\n']) '\n').map (StatusLine.log (logNumber verts log.Vertex))

/-- The call is one of the calls of `analysis.go` on the path
`requirements.txt`: checking for it, creating, opening, writing or reading it.
The calls on `Dockerfile` and on the source root as a whole (the build context)
are not. -/
def FsOp.onRequirements : FsOp → Bool
  | FsOp.statRequirements => true
  | FsOp.createRequirements => true
  | FsOp.writeRequirements _ => true
  | FsOp.openRequirements => true
  | FsOp.readRequirements => true
  | FsOp.statDockerfile => false
  | FsOp.newFS => false
  | FsOp.localMounts _ => false

/-- The pieces without the last one when that one is empty. -/
def dropLastEmpty (pieces : List Bytes) : List Bytes :=
  if pieces.getLast? = some [] then pieces.dropLast else pieces

/-- The lines of a manifest: the pieces between newlines, without an empty
piece after the last newline, each without one trailing carriage return. -/
def manifestLines (content : Bytes) : List Bytes :=
  (dropLastEmpty (Split content '\n')).map dropCR

/-- The first pattern rule: the line contains `@`, then one or more whitespace
characters, then `git`. -/
def gitRule (line : Bytes) : Prop :=
  ∃ pre ws post : Bytes, ws ≠ [] ∧ (∀ c ∈ ws, isSpace c = true) ∧
    line = pre ++ ['@'] ++ ws ++ ['g', 'i', 't'] ++ post

/-- The second pattern rule: the line starts, after optional whitespace, with
`opencv-python` ending at a word boundary (the end of the line or a byte that
is not a letter, a digit or an underscore). -/
def opencvRule (line : Bytes) : Prop :=
  ∃ ws post : Bytes, (∀ c ∈ ws, isSpace c = true) ∧
    line = ws ++ "opencv-python".toList ++ post ∧ isWordAt post.head? = false

/-- The claim on the requirements scan, for one manifest: starting from
`UsePythonRequirements` alone, each flag is the disjunction of its rule over
all lines of the manifest. -/
def scanIsDisjunction (content : Bytes) : Prop :=
  let a := scanRequirements content
  a.UseDockerfile = false ∧ a.UsePythonRequirements = true ∧
  (a.NeedsGit = true ↔ ∃ line ∈ manifestLines content, gitRule line) ∧
  (a.NeedsLibGL = true ↔ ∃ line ∈ manifestLines content, opencvRule line) ∧
  (a.NeedsLibGlib = true ↔ ∃ line ∈ manifestLines content, opencvRule line)

/-- The initial message of the session is accepted: the peer is authorized,
the build engine client is made, and the first message on `recvChan` is a
request without error, cancellation or choice. -/
def initialAccepted (env : Env) (s : Session) : Prop :=
  env.checkPeerAuth = (true, none) ∧ env.clientNew = none ∧
  ∃ rest, s.inbox = { req := some { Cancel := false, Choice := none }, err := none } :: rest

/-- The session of the examples: the initial message and nothing else. -/
def initialOnly : Session :=
  { inbox := [{ req := some {}, err := none }] }

/-- Collaborators with a `Dockerfile` in the source root and no failure. -/
def dockerfileEnv : Env :=
  { statDockerfile := StatResult.found }

/-- Collaborators with a `Dockerfile` in the source root and a stream on which
every `Send` fails. -/
def dockerfileSendFails : Env :=
  { statDockerfile := StatResult.found, sendErr := fun _ => some (Err.ext "transport is closing") }

/-- A session of the examples: the initial message, then a negative answer to
the guess choice; no `requirements.txt`. -/
def declineSession : Session :=
  { inbox := [
      { req := some {}, err := none },
      { req := some { Choice := some (Choice.mk (some (ChoiceBool.mk false "" "" "" ""))) },
        err := none }] }

/-- The packages as the specification lists them: `git`, `libgl1`,
`libglib2.0-0`, in that order, each one exactly when its flag is set. -/
def wantedPackages (analysis : AnalysisResult) : List String :=
  [("git", analysis.NeedsGit), ("libgl1", analysis.NeedsLibGL),
   ("libglib2.0-0", analysis.NeedsLibGlib)].filterMap
    (fun p => if p.2 then some p.1 else none)

/-- The command lines of the system-package install steps of a state: its run
steps on the package cache mount. -/
def installSteps : LlbState → List String
  | [] => []
  | LlbOp.Run shlex mount :: rest =>
    if mount = cacheAptMnt then shlex :: installSteps rest else installSteps rest
  | _ :: rest => installSteps rest

/-- The lines of a write as `logWriter.Write` splits them. -/
def writeLines (p : Bytes) : List Bytes :=
  Split (TrimRight p ['\n']) '\n'

/-- The log message `logWriter.Write` sends for a line. -/
def lineMessage (s : logWriter) (line : Bytes) : ActReply :=
  { Source := s.source, Variant := ReplyVariant.Log (TrimRight line lineCutset) }

/-- A stream on which the second `Send` fails and every other one succeeds. -/
def secondSendFails : Nat → Option Err :=
  fun n => if n = 1 then some (Err.ext "transport is closing") else none

/-- The line without its trailing vertical tab, form feed and carriage return
characters, as the specification words it: a character is kept when it is
none of the three or when a kept character follows it. -/
def withoutTrailingControls : Bytes → Bytes
  | [] => []
  | c :: cs =>
    match withoutTrailingControls cs with
    | [] => if c = Char.ofNat 11 ∨ c = Char.ofNat 12 ∨ c = Char.ofNat 13 then [] else [c]
    | kept => c :: kept

/-! # Theorems -/

/-! ## Lemmas on `TrimRight` and `Split` -/

theorem TrimRight_append_singleton (s : Bytes) (c : Char) (cutset : Bytes) :
    TrimRight (s ++ [c]) cutset = if c ∈ cutset then TrimRight s cutset else s ++ [c] := by
  unfold TrimRight
  by_cases h : c ∈ cutset
  · simp [List.dropWhile_cons, h]
  · simp [List.dropWhile_cons, h]

theorem TrimRight_replicate (n : Nat) (c : Char) (cutset : Bytes) (h : c ∈ cutset) :
    TrimRight (List.replicate n c) cutset = [] := by
  induction n with
  | zero => simp [TrimRight]
  | succ n ih =>
    rw [List.replicate_succ', TrimRight_append_singleton, if_pos h, ih]

theorem Split_ne_nil (s : Bytes) (sep : Char) : Split s sep ≠ [] := by
  induction s with
  | nil => simp [Split]
  | cons c cs ih =>
    unfold Split
    split
    · simp
    · split
      · simp
      · simp

theorem Split_of_not_mem (l : Bytes) (sep : Char) (h : sep ∉ l) : Split l sep = [l] := by
  induction l with
  | nil => simp [Split]
  | cons c cs ih =>
    have hc : c ≠ sep := fun e => h (by simp [e])
    have hcs : sep ∉ cs := fun e => h (by simp [e])
    simp [Split, hc, ih hcs]

theorem Split_append_sep (l rest : Bytes) (sep : Char) (h : sep ∉ l) :
    Split (l ++ sep :: rest) sep = l :: Split rest sep := by
  induction l with
  | nil => simp [Split]
  | cons c cs ih =>
    have hc : c ≠ sep := fun e => h (by simp [e])
    have hcs : sep ∉ cs := fun e => h (by simp [e])
    simp [Split, hc, ih hcs]


theorem TrimRight_append (a b cutset : Bytes) (h : TrimRight b cutset ≠ []) :
    TrimRight (a ++ b) cutset = a ++ TrimRight b cutset := by
  induction b using List.reverseRecOn with
  | nil => simp [TrimRight] at h
  | append_singleton b c ih =>
    rw [← List.append_assoc, TrimRight_append_singleton, TrimRight_append_singleton]
    rw [TrimRight_append_singleton] at h
    by_cases hc : c ∈ cutset
    · simp only [hc, if_true] at h ⊢
      exact ih h
    · simp [hc]

theorem TrimRight_eq_self (l cutset : Bytes) (h : ∀ c, l.getLast? = some c → c ∉ cutset) :
    TrimRight l cutset = l := by
  induction l using List.reverseRecOn with
  | nil => simp [TrimRight]
  | append_singleton b c _ =>
    rw [TrimRight_append_singleton, if_neg]
    exact h c (by simp)

theorem TrimRight_terminated (ls : List Bytes) (hne : ls ≠ [])
    (hl : ∀ l ∈ ls, l ≠ [] ∧ '\n' ∉ l) :
    TrimRight (terminated ls) ['\n'] ≠ [] ∧
    Split (TrimRight (terminated ls) ['\n']) '\n' = ls := by
  induction ls with
  | nil => exact absurd rfl hne
  | cons l rest ih =>
    have hl1 := hl l (by simp)
    have hself : TrimRight l ['\n'] = l := by
      apply TrimRight_eq_self
      intro c hc hmem
      have : c = '\n' := by simpa using hmem
      subst this
      exact hl1.2 (List.mem_of_getLast?_eq_some hc)
    cases rest with
    | nil =>
      have e : terminated [l] = l ++ ['\n'] := by simp [terminated]
      rw [e, TrimRight_append_singleton]
      simp only [List.mem_singleton, if_true, hself]
      exact ⟨hl1.1, Split_of_not_mem l '\n' hl1.2⟩
    | cons l2 rest =>
      have ih2 := ih (by simp) (fun x hx => hl x (by simp [hx]))
      have e : terminated (l :: l2 :: rest) = (l ++ ['\n']) ++ terminated (l2 :: rest) := by
        simp [terminated]
      rw [e, TrimRight_append _ _ _ ih2.1]
      refine ⟨by simp, ?_⟩
      rw [List.append_assoc, List.singleton_append, Split_append_sep _ _ _ hl1.2, ih2.2]

theorem sendLines_ok (sendErr : Nat → Option Err) (h : ∀ n, sendErr n = none) (s : logWriter)
    (lines : List Bytes) (st : Stream) :
    logWriter.sendLines sendErr s lines st =
      ({ calls := st.calls + lines.length,
         sent := st.sent ++ lines.map (fun l =>
           { Source := s.source, Variant := ReplyVariant.Log (TrimRight l lineCutset) }) }, none) := by
  induction lines generalizing st with
  | nil => simp [logWriter.sendLines]
  | cons l rest ih =>
    simp [logWriter.sendLines, Stream.Send, h, ih]
    omega

theorem TrimRight_split (t cutset : Bytes) :
    ∃ trail, t = TrimRight t cutset ++ trail ∧ (∀ c ∈ trail, c ∈ cutset) ∧
      (∀ c, (TrimRight t cutset).getLast? = some c → c ∉ cutset) := by
  refine ⟨(t.reverse.takeWhile (fun c => cutset.contains c)).reverse, ?_, ?_, ?_⟩
  · unfold TrimRight
    rw [← List.reverse_append, List.takeWhile_append_dropWhile, List.reverse_reverse]
  · intro c hc
    have := List.mem_takeWhile_imp (List.mem_reverse.mp hc)
    simpa using this
  · intro c hc
    unfold TrimRight at hc
    rw [List.getLast?_reverse] at hc
    have := List.head?_dropWhile_not (fun c => cutset.contains c) t.reverse
    rw [hc] at this
    simpa using this

theorem TrimRight_append_of_nil (a b cutset : Bytes) (h : TrimRight b cutset = []) :
    TrimRight (a ++ b) cutset = TrimRight a cutset := by
  induction b using List.reverseRecOn with
  | nil => simp
  | append_singleton b c ih =>
    rw [TrimRight_append_singleton] at h
    rw [← List.append_assoc, TrimRight_append_singleton]
    by_cases hc : c ∈ cutset
    · simp only [hc, if_true] at h ⊢
      exact ih h
    · simp [hc] at h

theorem TrimRight_cons (c : Char) (cs cutset : Bytes) :
    TrimRight (c :: cs) cutset =
      match TrimRight cs cutset with
      | [] => if c ∈ cutset then [] else [c]
      | kept => c :: kept := by
  cases h : TrimRight cs cutset with
  | nil =>
    have h1 := TrimRight_append_of_nil [c] cs cutset h
    have h2 := TrimRight_append_singleton [] c cutset
    simp only [List.singleton_append, List.nil_append] at h1 h2
    rw [h1, h2]
    simp [TrimRight]
  | cons k ks =>
    have h1 := TrimRight_append [c] cs cutset (by simp [h])
    simp only [List.singleton_append] at h1
    rw [h1, h]

theorem TrimRight_lineCutset (l : Bytes) :
    TrimRight l lineCutset = withoutTrailingControls l := by
  induction l with
  | nil => simp [TrimRight, withoutTrailingControls]
  | cons c cs ih =>
    have hw : withoutTrailingControls (c :: cs) =
        match withoutTrailingControls cs with
        | [] => if c = Char.ofNat 11 ∨ c = Char.ofNat 12 ∨ c = Char.ofNat 13 then [] else [c]
        | kept => c :: kept := rfl
    rw [TrimRight_cons, ih, hw]
    cases withoutTrailingControls cs with
    | nil => simp [lineCutset]
    | cons k ks => rfl

/-- C3: when every stream send succeeds, a write whose bytes are `k ≥ 1`
non-empty, newline-free lines, each terminated by a newline, makes
`logWriter.Write` send exactly `k` log messages, in order, the `i`-th carrying
line `i` without its trailing vertical tabs, form feeds and carriage returns
and tagged with the writer's source label; the write returns no error.  The
text of a message is the longest beginning of its line that does not end in
one of the three characters: what is cut off consists of them only. -/
theorem logWriter_Write_sends_each_line (sendErr : Nat → Option Err) (s : logWriter) (st : Stream)
    (ls : List Bytes) (hsend : ∀ n, sendErr n = none) (hne : ls ≠ [])
    (hl : ∀ l ∈ ls, l ≠ [] ∧ '\n' ∉ l) :
    (logWriter.Write sendErr s (ls.flatMap (fun l => l ++ ['\n'])) st).2.sent
      = st.sent ++ ls.map (fun l =>
          { Source := s.source, Variant := ReplyVariant.Log (withoutTrailingControls l) }) ∧
    (logWriter.Write sendErr s (ls.flatMap (fun l => l ++ ['\n'])) st).1.2 = none ∧
    (∀ l ∈ ls, ∃ cut : Bytes, l = withoutTrailingControls l ++ cut ∧
      (∀ c ∈ cut, c = Char.ofNat 11 ∨ c = Char.ofNat 12 ∨ c = Char.ofNat 13) ∧
      (∀ c, (withoutTrailingControls l).getLast? = some c →
        c ≠ Char.ofNat 11 ∧ c ≠ Char.ofNat 12 ∧ c ≠ Char.ofNat 13)) := by
  have h := TrimRight_terminated ls hne hl
  unfold terminated at h
  refine ⟨?_, ?_, ?_⟩
  · simp [logWriter.Write, h.2, sendLines_ok sendErr hsend, TrimRight_lineCutset]
  · simp [logWriter.Write, h.2, sendLines_ok sendErr hsend]
  · intro l _
    obtain ⟨cut, hcut, hall, hlast⟩ := TrimRight_split l lineCutset
    rw [TrimRight_lineCutset] at hcut hlast
    refine ⟨cut, hcut, ?_, ?_⟩
    · intro c hc
      simpa [lineCutset] using hall c hc
    · intro c hc
      simpa [lineCutset] using hlast c hc

/-- The write of `a\nb\n` sends exactly the two messages `a` then `b`, and so
does the write of `a\r\nb\v\f\n`, whose lines end in a carriage return and in
a vertical tab and a form feed. -/
theorem logWriter_Write_sends_each_line_witness :
    (logWriter.Write (fun _ => none) ⟨"app"⟩ "a\nb\n".toList {}).2.sent
      = [{ Source := "app", Variant := ReplyVariant.Log ['a'] },
         { Source := "app", Variant := ReplyVariant.Log ['b'] }] ∧
    (logWriter.Write (fun _ => none) ⟨"app"⟩
        ['a', '\r', '\n', 'b', Char.ofNat 11, Char.ofNat 12, '\n'] {}).2.sent
      = [{ Source := "app", Variant := ReplyVariant.Log ['a'] },
         { Source := "app", Variant := ReplyVariant.Log ['b'] }] :=
  ⟨(logWriter_Write_sends_each_line (fun _ => none) ⟨"app"⟩ {} [['a'], ['b']] (fun _ => rfl)
      (by decide) (by decide)).1,
    (logWriter_Write_sends_each_line (fun _ => none) ⟨"app"⟩ {}
      [['a', '\r'], ['b', Char.ofNat 11, Char.ofNat 12]] (fun _ => rfl)
      (by decide) (by decide)).1⟩

/-- C4 as amended: for a write that consists of newlines and nothing else (any
number of them), with every send succeeding, `logWriter.Write` sends exactly
one log message, whose text is empty and whose source is the writer's label,
and returns the count 0 with no error. -/
theorem logWriter_Write_newlines_only (s : logWriter) (st : Stream) (n : Nat) :
    logWriter.Write (fun _ => none) s (List.replicate n '\n') st
      = ((0, none), { calls := st.calls + 1,
                      sent := st.sent ++ [{ Source := s.source, Variant := ReplyVariant.Log [] }] }) := by
  have h : TrimRight (List.replicate n '\n') ['\n'] = [] :=
    TrimRight_replicate n '\n' ['\n'] (by simp)
  simp [logWriter.Write, h, Split, logWriter.sendLines, Stream.Send, TrimRight]

/-- The write of the single byte newline sends a log message (with empty
text): it is not true that it sends none. -/
theorem logWriter_Write_newline_sends_empty_line :
    ¬ ((logWriter.Write (fun _ => none) ⟨"app"⟩ ['\n'] {}).2.sent = []) := by
  decide


theorem ExecState.run_append_singleton (sigErr : Nat → Signal → Option Err) (st : ExecState)
    (evs : List Event) (ev : Event) :
    ExecState.run sigErr st (evs ++ [ev]) =
      if (ExecState.run sigErr st evs).result = none
      then (ExecState.run sigErr st evs).step sigErr ev
      else ExecState.run sigErr st evs := by
  induction evs generalizing st with
  | nil =>
    cases hr : st.result <;> simp [ExecState.run, hr]
  | cons e evs ih =>
    cases hr : st.result with
    | none => simp [ExecState.run, hr, ih]
    | some r => simp [ExecState.run, hr]

/-- While the loop is still waiting, all it has received are cancellation
messages, at most three, and it has sent the first signals of the escalation. -/
theorem execProcess_running (sigErr : Nat → Signal → Option Err)
    (hsig : ∀ n sig, sigErr n sig = none) (pre : List Event)
    (hrun : (execProcess none sigErr pre).result = none) :
    (∀ ev ∈ pre, isCancel ev) ∧ pre.length ≤ 3 ∧
    execProcess none sigErr pre =
      { cancelCount := pre.length,
        signals := [Signal.SIGINT, Signal.SIGTERM, Signal.SIGKILL].take pre.length,
        received := pre.length, result := none } := by
  induction pre using List.reverseRecOn with
  | nil => simp [execProcess, ExecState.run]
  | append_singleton pre ev ih =>
    unfold execProcess at hrun ih ⊢
    simp only [] at hrun ih ⊢
    rw [ExecState.run_append_singleton] at hrun ⊢
    by_cases hres : (ExecState.run sigErr {} pre).result = none
    · obtain ⟨hall, hlen, heq⟩ := ih hres
      rw [if_pos hres] at hrun ⊢
      rw [heq] at hrun ⊢
      cases ev with
      | wait err => cases err <;> simp [ExecState.step] at hrun
      | recv r =>
        cases herr : r.err with
        | some e => simp [ExecState.step, herr] at hrun
        | none =>
          cases hc : GetCancel r.req with
          | false => simp [ExecState.step, herr, hc] at hrun
          | true =>
            have hcan : isCancel (Event.recv r) := ⟨r, rfl, herr, hc⟩
            have hlen' : pre.length = 0 ∨ pre.length = 1 ∨ pre.length = 2 ∨ pre.length = 3 := by
              omega
            rcases hlen' with h0 | h0 | h0 | h0 <;>
              simp [ExecState.step, ExecState.signal, herr, hc, h0, hsig] at hrun ⊢ <;>
              intro ev hev <;> rcases hev with hev | hev
            all_goals first | exact hall ev hev | (subst hev; exact hcan)
    · rw [if_neg hres] at hrun
      exact absurd hrun hres

/-- C1: in a run of `execProcess` in which every signal delivery succeeds and
the loop has not returned yet (the process has not exited), all messages
received so far are cancellations, and the next one is the `k`-th with
`k ≤ 4`.  The signals sent before it are the first `k - 1` of interrupt,
terminate, kill; the `k`-th cancellation sends the interrupt signal for
`k = 1`, the terminate signal for `k = 2` and the kill signal for `k = 3`, and
the loop goes on; for `k = 4` it sends no signal and the function fails with
the error "more than 3 cancel attempts". -/
theorem execProcess_cancel_escalation (sigErr : Nat → Signal → Option Err) (pre : List Event)
    (r : recvReq) (hsig : ∀ n sig, sigErr n sig = none)
    (hrun : (execProcess none sigErr pre).result = none)
    (hr : isCancel (Event.recv r)) :
    (∀ ev ∈ pre, isCancel ev) ∧ pre.length + 1 ≤ 4 ∧
    (execProcess none sigErr pre).signals
      = [Signal.SIGINT, Signal.SIGTERM, Signal.SIGKILL].take pre.length ∧
    (execProcess none sigErr (pre ++ [Event.recv r])).signals
      = (execProcess none sigErr pre).signals ++ (escalation (pre.length + 1)).toList ∧
    (execProcess none sigErr (pre ++ [Event.recv r])).result
      = if pre.length + 1 = 4 then some (some (Err.Errorf0 "more than 3 cancel attempts"))
        else none := by
  obtain ⟨hall, hlen, heq⟩ := execProcess_running sigErr hsig pre hrun
  obtain ⟨r', hr', herr, hc⟩ := hr
  cases hr'
  refine ⟨hall, by omega, by rw [heq], ?_⟩
  have hstep : execProcess none sigErr (pre ++ [Event.recv r])
      = (execProcess none sigErr pre).step sigErr (Event.recv r) := by
    unfold execProcess at hrun ⊢
    simp only [] at hrun ⊢
    rw [ExecState.run_append_singleton, if_pos hrun]
  rw [hstep, heq]
  have hlen' : pre.length = 0 ∨ pre.length = 1 ∨ pre.length = 2 ∨ pre.length = 3 := by omega
  rcases hlen' with h0 | h0 | h0 | h0 <;>
    simp [ExecState.step, ExecState.signal, herr, hc, h0, hsig, escalation]

/-- After exactly two cancellations the signals sent are interrupt then
terminate, in that order, and no kill; the loop is still waiting. -/
theorem execProcess_cancel_escalation_witness :
    (execProcess none (fun _ _ => none) [cancelMsg]).result = none ∧
    isCancel cancelMsg ∧
    (execProcess none (fun _ _ => none) [cancelMsg, cancelMsg]).signals
      = [Signal.SIGINT, Signal.SIGTERM] ∧
    (execProcess none (fun _ _ => none) [cancelMsg, cancelMsg]).result = none :=
  have h := execProcess_cancel_escalation (fun _ _ => none) [cancelMsg]
    { req := some { Cancel := true }, err := none } (fun _ _ => rfl) (by decide)
    ⟨_, rfl, rfl, rfl⟩
  ⟨by decide, ⟨_, rfl, rfl, rfl⟩, h.2.2.2.1, h.2.2.2.2⟩


theorem firstSeen_eq (ds : List Digest) : firstSeen ds = ds.foldl seenStep [] := rfl

theorem seenStep_mem (seen : List Digest) (d : Digest) : d ∈ seenStep seen d := by
  unfold seenStep
  split <;> simp [*]

theorem seenStep_nodup (seen : List Digest) (d : Digest) (h : seen.Nodup) :
    (seenStep seen d).Nodup := by
  unfold seenStep
  split
  · exact h
  · rename_i hd
    rw [List.nodup_append]
    refine ⟨h, by simp, ?_⟩
    intro a ha hb
    simp at hb
    subst hb
    exact hd ha

theorem foldl_seenStep_extends (seen : List Digest) (ds : List Digest) :
    ∃ t, ds.foldl seenStep seen = seen ++ t := by
  induction ds generalizing seen with
  | nil => exact ⟨[], by simp⟩
  | cons d ds ih =>
    obtain ⟨t, ht⟩ := ih (seenStep seen d)
    simp only [List.foldl_cons, ht]
    unfold seenStep
    split
    · exact ⟨t, rfl⟩
    · exact ⟨d :: t, by simp⟩

theorem foldl_seenStep_mem (seen : List Digest) (ds : List Digest) (d : Digest) :
    d ∈ ds.foldl seenStep seen ↔ d ∈ seen ∨ d ∈ ds := by
  induction ds generalizing seen with
  | nil => simp
  | cons x ds ih =>
    simp only [List.foldl_cons, ih, List.mem_cons]
    unfold seenStep
    split
    · rename_i hx
      constructor
      · rintro (h | h)
        · exact Or.inl h
        · exact Or.inr (Or.inr h)
      · rintro (h | h | h)
        · exact Or.inl h
        · exact Or.inl (h ▸ hx)
        · exact Or.inr h
    · simp only [List.mem_append, List.mem_singleton]
      tauto

theorem lookup_eq_none_of_not_mem (verts : VertMap) (d : Digest)
    (h : d ∉ verts.map Prod.fst) : verts.lookup d = none := by
  induction verts with
  | nil => rfl
  | cons p verts ih =>
    obtain ⟨k, v⟩ := p
    simp only [List.map_cons, List.mem_cons, not_or] at h
    have hk : (d == k) = false := by simpa using h.1
    simp [List.lookup_cons, hk, ih h.2]

theorem Numbered.lookup_none {verts : VertMap} {ks : List Digest} (h : Numbered verts ks)
    {d : Digest} (hd : d ∉ ks) : verts.lookup d = none :=
  lookup_eq_none_of_not_mem verts d (by rw [h.1]; exact hd)

theorem Numbered.nil : Numbered [] [] := by
  simp [Numbered]

theorem vertNumber_spec (verts : VertMap) (ks : List Digest) (d : Digest)
    (h : Numbered verts ks) :
    Numbered (vertNumber verts d).1 (seenStep ks d) ∧
    (vertNumber verts d).2 = ((seenStep ks d).indexOf d : Int) + 1 := by
  by_cases hd : d ∈ ks
  · have hl := h.2.2 d hd
    simp [vertNumber, hl, seenStep, hd, h]
  · have hl := h.lookup_none hd
    have hlen : verts.length = ks.length := by rw [← h.1]; simp
    have hstep : seenStep ks d = ks ++ [d] := by simp [seenStep, hd]
    simp only [vertNumber, hl, hstep]
    refine ⟨⟨by simp [h.1], ?_, ?_⟩, ?_⟩
    · rw [← hstep]; exact seenStep_nodup ks d h.2.1
    · intro x hx
      rw [List.lookup_append]
      by_cases hxk : x ∈ ks
      · rw [h.2.2 x hxk, List.indexOf_append_of_mem hxk]; rfl
      · have hxd : x = d := by simpa [hxk] using hx
        subst hxd
        rw [h.lookup_none hxk, List.indexOf_append_of_not_mem hxk]
        simp [List.lookup_cons, hlen]
    · rw [List.indexOf_append_of_not_mem hd]
      simp [hlen]

theorem vertexNumbers_append (a b : List StatusLine) :
    vertexNumbers (a ++ b) = vertexNumbers a ++ vertexNumbers b := by
  induction a with
  | nil => rfl
  | cons x a ih => cases x <;> simp [vertexNumbers, ih]

theorem vertexNumbers_map_warning (ws : List VertexWarning) :
    vertexNumbers (ws.map StatusLine.warning) = [] := by
  induction ws with
  | nil => rfl
  | cons w ws ih => simp [vertexNumbers, ih]

theorem vertexNumbers_map_log (n : Int) (ls : List Bytes) :
    vertexNumbers (ls.map (StatusLine.log n)) = [] := by
  induction ls with
  | nil => rfl
  | cons w ws ih => simp [vertexNumbers, ih]

theorem vertexNumbers_logLoop (verts : VertMap) (prev : Option VertexLog) (logs : List VertexLog) :
    vertexNumbers (logLoop verts prev logs) = [] := by
  induction logs generalizing prev with
  | nil => rfl
  | cons l logs ih =>
    unfold logLoop
    split
    · exact ih _
    · rw [vertexNumbers_append, ih, logLines, vertexNumbers_map_log]; rfl

theorem vertexLoop_spec (verts : VertMap) (ks : List Digest) (vs : List Vertex)
    (h : Numbered verts ks) (t : List Digest) :
    Numbered (vertexLoop verts vs).1 ((vs.map (fun v => v.Digest)).foldl seenStep ks) ∧
    vertexNumbers (vertexLoop verts vs).2 = (vs.map (fun v => v.Digest)).map (fun d =>
      ((((vs.map (fun v => v.Digest)).foldl seenStep ks) ++ t).indexOf d : Int) + 1) := by
  induction vs generalizing verts ks with
  | nil => simpa [vertexLoop, vertexNumbers] using h
  | cons v vs ih =>
    obtain ⟨h1, hn⟩ := vertNumber_spec verts ks v.Digest h
    obtain ⟨ih1, ih2⟩ := ih (vertNumber verts v.Digest).1 (seenStep ks v.Digest) h1
    obtain ⟨u, hu⟩ := foldl_seenStep_extends (seenStep ks v.Digest) (vs.map (fun v => v.Digest))
    refine ⟨by simpa [vertexLoop] using ih1, ?_⟩
    have hline : ∀ n, vertexNumbers [vertexLine n v] = [n] := by
      intro n; unfold vertexLine; split <;> rfl
    have hcons : (vertexLoop verts (v :: vs)).2
        = [vertexLine (vertNumber verts v.Digest).2 v]
          ++ (vertexLoop (vertNumber verts v.Digest).1 vs).2 := by
      simp [vertexLoop]
    rw [hcons, vertexNumbers_append, hline, ih2, hn]
    simp only [List.map_cons, List.foldl_cons, List.singleton_append, List.cons.injEq, and_true]
    rw [hu, List.append_assoc, List.indexOf_append_of_mem (seenStep_mem ks v.Digest)]

theorem statusLoop_spec (verts : VertMap) (ks : List Digest) (msgs : List SolveStatus)
    (h : Numbered verts ks) (t : List Digest) :
    Numbered (statusLoop verts msgs).1 ((reportedDigests msgs).foldl seenStep ks) ∧
    vertexNumbers (statusLoop verts msgs).2 = (reportedDigests msgs).map (fun d =>
      ((((reportedDigests msgs).foldl seenStep ks) ++ t).indexOf d : Int) + 1) := by
  induction msgs generalizing verts ks with
  | nil => simpa [statusLoop, vertexNumbers, reportedDigests] using h
  | cons msg msgs ih =>
    have hd : reportedDigests (msg :: msgs)
        = msg.Vertexes.map (fun v => v.Digest) ++ reportedDigests msgs := by
      simp [reportedDigests]
    obtain ⟨u, hu⟩ := foldl_seenStep_extends
      ((msg.Vertexes.map (fun v => v.Digest)).foldl seenStep ks) (reportedDigests msgs)
    obtain ⟨h1, hn⟩ := vertexLoop_spec verts ks msg.Vertexes h (u ++ t)
    obtain ⟨ih1, ih2⟩ := ih (vertexLoop verts msg.Vertexes).1 _ h1
    refine ⟨by simpa [statusLoop, handleStatus, hd, List.foldl_append] using ih1, ?_⟩
    have hcons : (statusLoop verts (msg :: msgs)).2
        = (msg.Warnings.map StatusLine.warning ++ (vertexLoop verts msg.Vertexes).2
            ++ logLoop (vertexLoop verts msg.Vertexes).1 none msg.Logs)
          ++ (statusLoop (vertexLoop verts msg.Vertexes).1 msgs).2 := by
      simp [statusLoop, handleStatus]
    rw [hcons, vertexNumbers_append, vertexNumbers_append, vertexNumbers_append,
      vertexNumbers_map_warning, vertexNumbers_logLoop, ih2, hn, hd, List.foldl_append, hu]
    simp [List.append_assoc]

/-- C2: over any sequence of status batches consumed by one
`buildkitStatusSender`, every step event is rendered with the position (from
1) of its digest among the distinct digests in order of first appearance.  The
distinct digests have no repetition and are exactly the reported ones, so two
distinct digests never share a number, and the map of the tracker gives the
`j`-th distinct digest the number `j` (from 1). -/
theorem buildkitStatusSender_numbers_first_seen (msgs : List SolveStatus) :
    vertexNumbers (buildkitStatusSender msgs)
      = (reportedDigests msgs).map (fun d =>
          ((firstSeen (reportedDigests msgs)).indexOf d : Int) + 1) ∧
    (firstSeen (reportedDigests msgs)).Nodup ∧
    (∀ d, d ∈ firstSeen (reportedDigests msgs) ↔ d ∈ reportedDigests msgs) ∧
    (∀ d ∈ reportedDigests msgs, ∀ d2 ∈ reportedDigests msgs,
      (firstSeen (reportedDigests msgs)).indexOf d
        = (firstSeen (reportedDigests msgs)).indexOf d2 → d = d2) ∧
    (∀ (j : Nat) (hj : j < (firstSeen (reportedDigests msgs)).length),
      (statusLoop [] msgs).1.lookup ((firstSeen (reportedDigests msgs)).get ⟨j, hj⟩)
        = some ((j : Int) + 1)) := by
  obtain ⟨h1, h2⟩ := statusLoop_spec [] [] msgs Numbered.nil []
  have hmem : ∀ d, d ∈ firstSeen (reportedDigests msgs) ↔ d ∈ reportedDigests msgs := by
    intro d
    rw [firstSeen_eq, foldl_seenStep_mem]
    simp
  refine ⟨by simpa [buildkitStatusSender, firstSeen_eq] using h2, h1.2.1, hmem, ?_, ?_⟩
  · intro d hd d2 hd2 he
    exact (List.indexOf_inj ((hmem d).mpr hd) ((hmem d2).mpr hd2)).mp he
  · intro j hj
    have hmem : (firstSeen (reportedDigests msgs)).get ⟨j, hj⟩ ∈ firstSeen (reportedDigests msgs) :=
      List.get_mem _ _ _
    have hn : (firstSeen (reportedDigests msgs)).Nodup := h1.2.1
    have hlook := h1.2.2 _ hmem
    have hidx := List.get_indexOf hn ⟨j, hj⟩
    rw [hlook]
    rw [← firstSeen_eq, hidx]


theorem vertexState_eq_statusWord (vert : Vertex) : vertexState vert = statusWord vert := by
  unfold vertexState statusWord
  cases vert.Cached <;> cases vert.Completed <;> cases vert.Started <;> simp

theorem vertexStates_append (a b : List StatusLine) :
    vertexStates (a ++ b) = vertexStates a ++ vertexStates b := by
  induction a with
  | nil => rfl
  | cons x a ih => cases x <;> simp [vertexStates, ih]

theorem vertexStates_map_warning (ws : List VertexWarning) :
    vertexStates (ws.map StatusLine.warning) = [] := by
  induction ws with
  | nil => rfl
  | cons w ws ih => simp [vertexStates, ih]

theorem vertexStates_map_log (n : Int) (ls : List Bytes) :
    vertexStates (ls.map (StatusLine.log n)) = [] := by
  induction ls with
  | nil => rfl
  | cons w ws ih => simp [vertexStates, ih]

theorem vertexStates_logLoop (verts : VertMap) (prev : Option VertexLog) (logs : List VertexLog) :
    vertexStates (logLoop verts prev logs) = [] := by
  induction logs generalizing prev with
  | nil => rfl
  | cons l logs ih =>
    unfold logLoop
    split
    · exact ih _
    · rw [vertexStates_append, ih, logLines, vertexStates_map_log]; rfl

theorem vertexStates_vertexLoop (verts : VertMap) (vs : List Vertex) :
    vertexStates (vertexLoop verts vs).2 = vs.map statusWord := by
  induction vs generalizing verts with
  | nil => rfl
  | cons v vs ih =>
    have hline : ∀ n, vertexStates [vertexLine n v] = [statusWord v] := by
      intro n; unfold vertexLine; split <;> simp [vertexStates, vertexState_eq_statusWord]
    have hcons : (vertexLoop verts (v :: vs)).2
        = [vertexLine (vertNumber verts v.Digest).2 v]
          ++ (vertexLoop (vertNumber verts v.Digest).1 vs).2 := by
      simp [vertexLoop]
    rw [hcons, vertexStates_append, hline, ih]
    rfl

theorem vertexStates_statusLoop (verts : VertMap) (msgs : List SolveStatus) :
    vertexStates (statusLoop verts msgs).2
      = (msgs.flatMap (fun msg => msg.Vertexes)).map statusWord := by
  induction msgs generalizing verts with
  | nil => rfl
  | cons msg msgs ih =>
    have hcons : (statusLoop verts (msg :: msgs)).2
        = (msg.Warnings.map StatusLine.warning ++ (vertexLoop verts msg.Vertexes).2
            ++ logLoop (vertexLoop verts msg.Vertexes).1 none msg.Logs)
          ++ (statusLoop (vertexLoop verts msg.Vertexes).1 msgs).2 := by
      simp [statusLoop, handleStatus]
    rw [hcons, vertexStates_append, vertexStates_append, vertexStates_append,
      vertexStates_map_warning, vertexStates_logLoop, vertexStates_vertexLoop, ih]
    simp

/-- C8: the status words rendered by `buildkitStatusSender` for the reported
build steps are, in order, `CACHED` if the step was served from cache,
otherwise `DONE` if a completion time is present, otherwise `START` if a start
time is present, otherwise `NEW`. -/
theorem buildkitStatusSender_status_word (msgs : List SolveStatus) :
    vertexStates (buildkitStatusSender msgs)
      = (msgs.flatMap (fun msg => msg.Vertexes)).map statusWord :=
  vertexStates_statusLoop [] msgs

theorem logSkips_some (p q : VertexLog) (logs : List VertexLog)
    (hv : p.Vertex = q.Vertex) (ht : p.Timestamp = q.Timestamp) :
    logSkips (some p) logs
      = List.zipWith (fun before log =>
          decide (before.Vertex = log.Vertex ∧ before.Timestamp = log.Timestamp))
          (q :: logs) logs := by
  induction logs generalizing p q with
  | nil => rfl
  | cons l rest ih =>
    by_cases hdup : q.Vertex = l.Vertex ∧ q.Timestamp = l.Timestamp
    · have hd : isDuplicate (some p) l = true := by
        simp [isDuplicate, hv, ht, hdup.1, hdup.2]
      simp only [logSkips, hd, if_true, List.zipWith_cons_cons, hdup, and_self, decide_True]
      rw [ih p l (hv.trans hdup.1) (ht.trans hdup.2)]
    · have hd : isDuplicate (some p) l = false := by
        simp only [isDuplicate, hv, ht]
        simpa using not_and.mp hdup
      simp only [logSkips, hd, List.zipWith_cons_cons, hdup, decide_False]
      rw [ih l l rfl rfl]
      simp

theorem logSkips_none (logs : List VertexLog) : logSkips none logs = repeatsPrevious logs := by
  cases logs with
  | nil => rfl
  | cons first rest =>
    simp only [logSkips, isDuplicate, repeatsPrevious]
    rw [logSkips_some first first rest rfl rfl]
    simp

theorem logLoop_eq_kept (verts : VertMap) (prev : Option VertexLog) (logs : List VertexLog) :
    logLoop verts prev logs
      = (keptLogs logs (logSkips prev logs)).flatMap (logLines verts) := by
  induction logs generalizing prev with
  | nil => rfl
  | cons l rest ih =>
    unfold logLoop logSkips
    split
    · rw [ih]; simp [keptLogs]
    · rw [ih]; simp [keptLogs]

/-- C9: within one status batch the loop over the log records skips a record
if and only if the record immediately before it in the batch has the same step
and the same timestamp (the first record is never skipped), and the lines sent
are those of the records that are not skipped, in order. -/
theorem logLoop_skips_consecutive_repeats (verts : VertMap) (logs : List VertexLog) :
    logSkips none logs = repeatsPrevious logs ∧
    logLoop verts none logs
      = (keptLogs logs (repeatsPrevious logs)).flatMap (logLines verts) := by
  refine ⟨logSkips_none logs, ?_⟩
  rw [logLoop_eq_kept, logSkips_none]


theorem TrimRight_head (t cutset : Bytes) (c : Char)
    (h : (TrimRight t cutset).head? = some c) : t.head? = some c := by
  obtain ⟨trail, ht, -, -⟩ := TrimRight_split t cutset
  rw [ht]
  cases hx : TrimRight t cutset with
  | nil => simp [hx] at h
  | cons a x => simpa [hx] using h

theorem Trim_split (s cutset : Bytes) :
    ∃ lead trail, s = lead ++ Trim s cutset ++ trail ∧
      (∀ c ∈ lead, c ∈ cutset) ∧ (∀ c ∈ trail, c ∈ cutset) ∧
      (∀ c, (Trim s cutset).head? = some c → c ∉ cutset) ∧
      (∀ c, (Trim s cutset).getLast? = some c → c ∉ cutset) := by
  obtain ⟨trail, ht, htrail, hlast⟩ := TrimRight_split (TrimLeft s cutset) cutset
  refine ⟨s.takeWhile (fun c => cutset.contains c), trail, ?_, ?_, htrail, ?_, hlast⟩
  · unfold Trim
    rw [List.append_assoc, ← ht]
    exact (List.takeWhile_append_dropWhile _ s).symm
  · intro c hc
    simpa using List.mem_takeWhile_imp hc
  · intro c hc
    have h1 := TrimRight_head _ _ _ hc
    unfold TrimLeft at h1
    have := List.head?_dropWhile_not (fun c => cutset.contains c) s
    rw [h1] at this
    simpa using this

theorem intercalate_Split (s : Bytes) (sep : Char) :
    [sep].intercalate (Split s sep) = s := by
  induction s with
  | nil => simp [Split, List.intercalate]
  | cons c cs ih =>
    unfold Split
    by_cases hc : c = sep
    · simp only [hc, if_true]
      cases hs : Split cs sep with
      | nil => exact absurd hs (Split_ne_nil cs sep)
      | cons l ls =>
        rw [hs] at ih
        simp [List.intercalate, List.intersperse] at ih ⊢
        rw [← hc] at ih ⊢
        exact ih
    · simp only [hc, if_false]
      cases hs : Split cs sep with
      | nil => exact absurd hs (Split_ne_nil cs sep)
      | cons l ls =>
        rw [hs] at ih
        cases ls with
        | nil => simp [List.intercalate, List.intersperse] at ih ⊢; exact ih
        | cons l2 ls => simp [List.intercalate, List.intersperse] at ih ⊢; exact ih

theorem logNumber_of_numbered (verts : VertMap) (ks : List Digest) (h : Numbered verts ks)
    (d : Digest) :
    logNumber verts d = if d ∈ ks then (ks.indexOf d : Int) + 1 else -1 := by
  unfold logNumber
  by_cases hd : d ∈ ks
  · rw [h.2.2 d hd, if_pos hd]
  · rw [h.lookup_none hd, if_neg hd]

/-- C10 as amended: for a log record of a batch (`msgs` are the batches up to
and including it), the payload is a run of leading newline / carriage-return
bytes, a middle part that neither starts nor ends with such a byte, and a run
of trailing ones; both runs are removed.  The lines sent for the record, when
it is not skipped, are the pieces of the middle part between newlines, one LOG
line per piece, in order (joining them with newlines gives the middle part
back), each carrying the display number of the record's step, or -1 if that
step has never been reported. -/
theorem logLines_trims_both_ends (msgs : List SolveStatus) (log : VertexLog) :
    ∃ lead mid trail : Bytes,
      log.Data = lead ++ mid ++ trail ∧
      (∀ c ∈ lead, c = '\r' ∨ c = '\n') ∧ (∀ c ∈ trail, c = '\r' ∨ c = '\n') ∧
      (∀ c, mid.head? = some c → c ≠ '\r' ∧ c ≠ '\n') ∧
      (∀ c, mid.getLast? = some c → c ≠ '\r' ∧ c ≠ '\n') ∧
      logLines (statusLoop [] msgs).1 log
        = (Split mid '\n').map (StatusLine.log
            (if log.Vertex ∈ firstSeen (reportedDigests msgs)
             then ((firstSeen (reportedDigests msgs)).indexOf log.Vertex : Int) + 1 else -1)) ∧
      ['\n'].intercalate (Split mid '\n') = mid := by
  obtain ⟨lead, trail, hs, hlead, htrail, hhead, hlast⟩ := Trim_split log.Data ['\r', '\n']
  obtain ⟨hnum, -⟩ := statusLoop_spec [] [] msgs Numbered.nil []
  refine ⟨lead, Trim log.Data ['\r', '\n'], trail, hs, ?_, ?_, ?_, ?_, ?_, intercalate_Split _ _⟩
  · intro c hc; simpa using hlead c hc
  · intro c hc; simpa using htrail c hc
  · intro c hc; simpa using hhead c hc
  · intro c hc; simpa using hlast c hc
  · rw [logLines, logNumber_of_numbered _ _ hnum, firstSeen_eq]

/-- The lines sent for the payload `\nfoo\n` of an unreported step: the one
line `foo`; trimming at the end only would give an empty line first. -/
theorem logLines_drops_leading_blank_line :
    buildkitStatusSender
        [{ Logs := [{ Vertex := "sha256:0", Timestamp := 0, Data := "\nfoo\n".toList }] }]
      = [StatusLine.log (-1) "foo".toList] ∧
    logLinesTrailingOnly [] { Vertex := "sha256:0", Timestamp := 0, Data := "\nfoo\n".toList }
      = [StatusLine.log (-1) [], StatusLine.log (-1) "foo".toList] := by
  decide

/-- The claim on the log lines fails for the payload `\nfoo\n`: the lines sent
are not those of the payload trimmed at its end only. -/
theorem buildkitStatusSender_trims_leading_newlines :
    ¬ (buildkitStatusSender
        [{ Logs := [{ Vertex := "sha256:0", Timestamp := 0, Data := "\nfoo\n".toList }] }]
      = logLinesTrailingOnly [] { Vertex := "sha256:0", Timestamp := 0, Data := "\nfoo\n".toList }) := by
  decide


/-! ## The two patterns -/

theorem matchHere_lit_cons (c : Char) (re : Regexp) (prev : Option Char) (d : Char) (ds : Bytes) :
    matchHere (Node.lit c :: re) prev (d :: ds) = (d == c && matchHere re (some d) ds) := rfl

theorem matchHere_lit_nil (c : Char) (re : Regexp) (prev : Option Char) :
    matchHere (Node.lit c :: re) prev [] = false := rfl

theorem matchHere_plus_cons (cls : Char → Bool) (re : Regexp) (prev : Option Char) (d : Char)
    (ds : Bytes) :
    matchHere (Node.plus cls :: re) prev (d :: ds)
      = (cls d && starLoop cls (matchHere re) (some d) ds) := rfl

theorem matchHere_plus_nil (cls : Char → Bool) (re : Regexp) (prev : Option Char) :
    matchHere (Node.plus cls :: re) prev [] = false := rfl

theorem starLoop_iff (cls : Char → Bool) (k : Option Char → Bytes → Bool)
    (hk : ∀ p q s, k p s = k q s) (prev : Option Char) (s : Bytes) :
    starLoop cls k prev s = true ↔
      ∃ ws rest, s = ws ++ rest ∧ (∀ c ∈ ws, cls c = true) ∧ k none rest = true := by
  induction s generalizing prev with
  | nil =>
    simp only [starLoop]
    constructor
    · intro h
      exact ⟨[], [], rfl, by simp, by rw [hk none prev]; exact h⟩
    · rintro ⟨ws, rest, hs, -, hrest⟩
      have hr : rest = [] := by
        cases ws with
        | nil => simpa using hs.symm
        | cons a ws => simp at hs
      rw [hk prev none, ← hr]; exact hrest
  | cons d ds ih =>
    simp only [starLoop, Bool.or_eq_true, Bool.and_eq_true]
    constructor
    · rintro (h | ⟨hd, h⟩)
      · exact ⟨[], d :: ds, rfl, by simp, by rw [hk none prev]; exact h⟩
      · obtain ⟨ws, rest, hs, hws, hrest⟩ := (ih (some d)).mp h
        refine ⟨d :: ws, rest, by simp [hs], ?_, hrest⟩
        intro c hc
        rcases List.mem_cons.mp hc with rfl | hc
        · exact hd
        · exact hws c hc
    · rintro ⟨ws, rest, hs, hws, hrest⟩
      cases ws with
      | nil =>
        left
        have hr : rest = d :: ds := by simpa using hs.symm
        rw [hk prev none, ← hr]; exact hrest
      | cons a ws =>
        right
        simp only [List.cons_append, List.cons.injEq] at hs
        obtain ⟨rfl, rfl⟩ := hs
        exact ⟨hws _ (by simp), (ih (some d)).mpr ⟨ws, rest, rfl, fun c hc => hws c (by simp [hc]), hrest⟩⟩

theorem getLast?_cons_or (c : Char) (lits : Bytes) (prev : Option Char) :
    ((c :: lits).getLast?).or prev = (lits.getLast?).or (some c) := by
  cases lits with
  | nil => rfl
  | cons b l =>
    rw [List.getLast?_cons_cons, List.getLast?_eq_getLast _ (by simp)]
    rfl

theorem matchHere_lits (lits : Bytes) (re : Regexp) (prev : Option Char) (s : Bytes) :
    matchHere (lits.map Node.lit ++ re) prev s = true ↔
      ∃ rest, s = lits ++ rest ∧ matchHere re ((lits.getLast?).or prev) rest = true := by
  induction lits generalizing prev s with
  | nil => simp
  | cons c lits ih =>
    cases s with
    | nil => simp [matchHere_lit_nil]
    | cons d ds =>
      rw [List.map_cons, List.cons_append, matchHere_lit_cons, Bool.and_eq_true, ih,
        getLast?_cons_or]
      constructor
      · rintro ⟨hd, rest, hds, h⟩
        have hd' : d = c := by simpa using hd
        subst hd'
        subst hds
        exact ⟨rest, rfl, h⟩
      · rintro ⟨rest, hs, h⟩
        simp only [List.cons_append, List.cons.injEq] at hs
        obtain ⟨rfl, rfl⟩ := hs
        exact ⟨by simp, rest, rfl, h⟩

theorem searchFrom_iff (re : Regexp) (hk : ∀ p q s, matchHere re p s = matchHere re q s)
    (prev : Option Char) (s : Bytes) :
    searchFrom re prev s = true ↔
      ∃ pre post, s = pre ++ post ∧ matchHere re none post = true := by
  induction s generalizing prev with
  | nil =>
    simp only [searchFrom]
    constructor
    · intro h
      exact ⟨[], [], rfl, by rw [hk none prev]; exact h⟩
    · rintro ⟨pre, post, hs, h⟩
      have hp : post = [] := by
        cases pre with
        | nil => simpa using hs.symm
        | cons a pre => simp at hs
      rw [hk prev none, ← hp]; exact h
  | cons d ds ih =>
    simp only [searchFrom, Bool.or_eq_true]
    constructor
    · rintro (h | h)
      · exact ⟨[], d :: ds, rfl, by rw [hk none prev]; exact h⟩
      · obtain ⟨pre, post, hs, hp⟩ := (ih (some d)).mp h
        exact ⟨d :: pre, post, by simp [hs], hp⟩
    · rintro ⟨pre, post, hs, hp⟩
      cases pre with
      | nil =>
        left
        have hr : post = d :: ds := by simpa using hs.symm
        rw [hk prev none, ← hr]; exact hp
      | cons a pre =>
        right
        simp only [List.cons_append, List.cons.injEq] at hs
        exact (ih (some d)).mpr ⟨pre, post, hs.2, hp⟩

theorem matchHere_git_tail (p : Option Char) (t : Bytes) :
    matchHere [Node.lit 'g', Node.lit 'i', Node.lit 't'] p t = true ↔
      ∃ post, t = ['g', 'i', 't'] ++ post := by
  have h := matchHere_lits ['g', 'i', 't'] [] p t
  simp only [List.map_cons, List.map_nil, List.append_nil] at h
  rw [h]
  constructor
  · rintro ⟨rest, hs, -⟩; exact ⟨rest, hs⟩
  · rintro ⟨rest, hs⟩; exact ⟨rest, hs, rfl⟩

theorem matchHere_gitRegex (prev : Option Char) (s : Bytes) :
    matchHere gitRegex prev s = true ↔
      ∃ ws post : Bytes, ws ≠ [] ∧ (∀ c ∈ ws, isSpace c = true) ∧
        s = ['@'] ++ ws ++ ['g', 'i', 't'] ++ post := by
  have hk : ∀ (p q : Option Char) (t : Bytes),
      matchHere [Node.lit 'g', Node.lit 'i', Node.lit 't'] p t
        = matchHere [Node.lit 'g', Node.lit 'i', Node.lit 't'] q t := by
    intro p q t; cases t <;> rfl
  have hre : gitRegex = Node.lit '@' :: Node.plus isSpace ::
      [Node.lit 'g', Node.lit 'i', Node.lit 't'] := rfl
  rw [hre]
  cases s with
  | nil =>
    rw [matchHere_lit_nil]
    simp
  | cons d ds =>
    cases ds with
    | nil =>
      rw [matchHere_lit_cons, matchHere_plus_nil]
      simp only [Bool.and_false, Bool.false_eq_true, false_iff]
      rintro ⟨ws, post, hne, -, hs⟩
      cases ws with
      | nil => exact hne rfl
      | cons a ws => simp at hs
    | cons e es =>
      rw [matchHere_lit_cons, matchHere_plus_cons, Bool.and_eq_true, Bool.and_eq_true,
        starLoop_iff isSpace _ hk]
      constructor
      · rintro ⟨hd, he, ws, rest, rfl, hws, hrest⟩
        have hd' : d = '@' := by simpa using hd
        subst hd'
        obtain ⟨post, rfl⟩ := (matchHere_git_tail none rest).mp hrest
        refine ⟨e :: ws, post, by simp, ?_, by simp⟩
        intro c hc
        rcases List.mem_cons.mp hc with rfl | hc
        · exact he
        · exact hws c hc
      · rintro ⟨ws, post, hne, hws, hs⟩
        cases ws with
        | nil => exact absurd rfl hne
        | cons a ws =>
          simp only [List.cons_append, List.nil_append, List.append_assoc, List.cons.injEq] at hs
          obtain ⟨rfl, rfl, rfl⟩ := hs
          exact ⟨by simp, hws _ (by simp), ws, _, rfl, fun c hc => hws c (by simp [hc]),
            (matchHere_git_tail none _).mpr ⟨post, by simp⟩⟩

theorem MatchString_gitRegex (line : Bytes) :
    MatchString gitRegex line = true ↔ gitRule line := by
  unfold MatchString
  rw [searchFrom_iff gitRegex (fun p q s => by cases s <;> rfl)]
  unfold gitRule
  constructor
  · rintro ⟨pre, post, rfl, h⟩
    obtain ⟨ws, post2, hne, hws, rfl⟩ := (matchHere_gitRegex none post).mp h
    exact ⟨pre, ws, post2, hne, hws, by simp [List.append_assoc]⟩
  · rintro ⟨pre, ws, post, hne, hws, rfl⟩
    exact ⟨pre, ['@'] ++ ws ++ ['g', 'i', 't'] ++ post, by simp [List.append_assoc],
      (matchHere_gitRegex none _).mpr ⟨ws, post, hne, hws, rfl⟩⟩

theorem searchFrom_opencvRegex_some (p : Char) (s : Bytes) :
    searchFrom opencvRegex (some p) s = false := by
  induction s generalizing p with
  | nil => rfl
  | cons d ds ih =>
    have h : matchHere opencvRegex (some p) (d :: ds) = false := rfl
    simp only [searchFrom, h, ih, Bool.or_false]

theorem MatchString_opencvRegex (line : Bytes) :
    MatchString opencvRegex line = true ↔ opencvRule line := by
  have hs : MatchString opencvRegex line = matchHere opencvRegex none line := by
    unfold MatchString
    cases line with
    | nil => rfl
    | cons d ds => simp only [searchFrom, searchFrom_opencvRegex_some, Bool.or_false]
  have hm : matchHere opencvRegex none line
      = starLoop isSpace
          (matchHere ("opencv-python".toList.map Node.lit ++ [Node.wordBoundary])) none line := rfl
  have hn : ("opencv-python".toList.getLast?).or none = some 'n' := by decide
  have hw : isWordAt (some 'n') = true := by decide
  have hb : ∀ post : Bytes, matchHere [Node.wordBoundary] (some 'n') post = true
      ↔ isWordAt post.head? = false := by
    intro post
    show ((isWordAt (some 'n') != isWordAt post.head?) && true) = true ↔ _
    rw [hw]
    cases isWordAt post.head? <;> simp
  rw [hs, hm, starLoop_iff isSpace _ (fun p q s => by cases s <;> rfl)]
  unfold opencvRule
  constructor
  · rintro ⟨ws, rest, rfl, hws, h⟩
    obtain ⟨post, rfl, hbd⟩ := (matchHere_lits _ _ _ _).mp h
    rw [hn] at hbd
    exact ⟨ws, post, hws, by simp [List.append_assoc], (hb post).mp hbd⟩
  · rintro ⟨ws, post, hws, rfl, hbd⟩
    refine ⟨ws, "opencv-python".toList ++ post, by simp [List.append_assoc], hws, ?_⟩
    refine (matchHere_lits _ _ _ _).mpr ⟨post, rfl, ?_⟩
    rw [hn]
    exact (hb post).mpr hbd


/-! ## The scanner -/

theorem manifestLines_eq (content : Bytes) :
    manifestLines content = (dropLastEmpty (Split content '\n')).map dropCR := rfl

theorem dropLastEmpty_cons (a : Bytes) (ls : List Bytes) (h : ls ≠ []) :
    dropLastEmpty (a :: ls) = a :: dropLastEmpty ls := by
  cases ls with
  | nil => exact absurd rfl h
  | cons b ls =>
    unfold dropLastEmpty
    rw [List.getLast?_cons_cons]
    split <;> simp

theorem scanTokens_eq (max : Nat) (cur s : Bytes) (l : Bytes) (ls : List Bytes)
    (hs : Split s '\n' = l :: ls)
    (hlen : ∀ x ∈ (cur.reverse ++ l) :: ls, x.length < max) :
    scanTokens max cur s = (dropLastEmpty ((cur.reverse ++ l) :: ls)).map dropCR := by
  induction s generalizing cur l ls with
  | nil =>
    simp only [Split, List.cons.injEq] at hs
    obtain ⟨rfl, rfl⟩ := hs
    have hl := hlen _ (List.mem_cons_self _ _)
    simp only [List.append_nil, List.length_reverse] at hl
    by_cases hc : cur = []
    · simp [scanTokens, hc, dropLastEmpty]
    · simp [scanTokens, hc, dropLastEmpty, hl]
  | cons c cs ih =>
    by_cases hc : c = '\n'
    · subst hc
      simp only [Split, if_true, List.cons.injEq] at hs
      obtain ⟨rfl, rfl⟩ := hs
      have hl := hlen _ (List.mem_cons_self _ _)
      simp only [List.append_nil, List.length_reverse] at hl
      obtain ⟨l2, ls2, h2⟩ : ∃ l2 ls2, Split cs '\n' = l2 :: ls2 := by
        cases h : Split cs '\n' with
        | nil => exact absurd h (Split_ne_nil _ _)
        | cons a b => exact ⟨a, b, rfl⟩
      have ih2 := ih [] l2 ls2 h2 (by
        intro x hx
        apply hlen x
        rw [h2]
        simpa using Or.inr hx)
      rw [dropLastEmpty_cons _ _ (Split_ne_nil _ _), h2]
      simp only [List.reverse_nil, List.nil_append] at ih2
      simp only [scanTokens, if_true, hl, ih2, List.append_nil, List.map_cons]
    · obtain ⟨l2, ls2, h2⟩ : ∃ l2 ls2, Split cs '\n' = l2 :: ls2 := by
        cases h : Split cs '\n' with
        | nil => exact absurd h (Split_ne_nil _ _)
        | cons a b => exact ⟨a, b, rfl⟩
      simp only [Split, hc, if_false, h2, List.cons.injEq] at hs
      obtain ⟨rfl, rfl⟩ := hs
      have ih2 := ih (c :: cur) l2 ls2 h2 (by
        intro x hx
        apply hlen x
        simpa using hx)
      simp only [scanTokens, hc, if_false, ih2]
      simp

theorem scannerLines_eq_manifestLines (content : Bytes)
    (h : ∀ l ∈ Split content '\n', l.length < MaxScanTokenSize) :
    scannerLines content = manifestLines content := by
  obtain ⟨l, ls, hs⟩ : ∃ l ls, Split content '\n' = l :: ls := by
    cases h : Split content '\n' with
    | nil => exact absurd h (Split_ne_nil _ _)
    | cons a b => exact ⟨a, b, rfl⟩
  rw [manifestLines_eq, hs]
  unfold scannerLines
  rw [scanTokens_eq MaxScanTokenSize [] content l ls hs (by simpa [hs] using h)]
  simp

theorem scanTokens_too_long (max n : Nat) (cur rest : Bytes) (c : Char) (hc : c ≠ '\n')
    (h : max ≤ cur.length + n) :
    scanTokens max cur (List.replicate n c ++ '\n' :: rest) = [] := by
  induction n generalizing cur with
  | zero =>
    have : ¬ cur.length < max := by omega
    simp [scanTokens, this]
  | succ n ih =>
    rw [List.replicate_succ, List.cons_append]
    simp only [scanTokens, hc, if_false]
    apply ih
    simp only [List.length_cons]
    omega

/-! ## The scan loop -/

theorem foldl_scanLine (lines : List Bytes) (a : AnalysisResult) :
    lines.foldl scanLine a =
      { a with
        NeedsGit := a.NeedsGit || lines.any (MatchString gitRegex),
        NeedsLibGL := a.NeedsLibGL || lines.any (MatchString opencvRegex),
        NeedsLibGlib := a.NeedsLibGlib || lines.any (MatchString opencvRegex) } := by
  induction lines generalizing a with
  | nil => simp
  | cons l lines ih =>
    rw [List.foldl_cons, ih]
    unfold scanLine
    cases hg : MatchString gitRegex l <;> cases ho : MatchString opencvRegex l <;>
      simp [hg, ho, Bool.or_assoc]

theorem scanRequirements_flags (content : Bytes) :
    scanRequirements content =
      { UsePythonRequirements := true,
        NeedsGit := (scannerLines content).any (MatchString gitRegex),
        NeedsLibGL := (scannerLines content).any (MatchString opencvRegex),
        NeedsLibGlib := (scannerLines content).any (MatchString opencvRegex) } := by
  unfold scanRequirements
  rw [foldl_scanLine]
  simp

/-- For every requirements manifest in which every line is shorter than
65536 bytes (the token limit of the scanner), the scan does what the manifest
claim says: the flags are, starting from `UsePythonRequirements` alone,
exactly the disjunction over all lines of the two pattern rules. -/
theorem scanRequirements_is_disjunction (content : Bytes)
    (h : ∀ l ∈ Split content '\n', l.length < MaxScanTokenSize) :
    scanIsDisjunction content := by
  unfold scanIsDisjunction
  refine ⟨?_, ?_, ?_, ?_, ?_⟩ <;>
    simp [scanRequirements_flags, scannerLines_eq_manifestLines content h,
      MatchString_gitRegex, MatchString_opencvRegex]

/-- The manifest `opencv-python==4.5` gives `UsePythonRequirements`,
`NeedsLibGL` and `NeedsLibGlib` and not `NeedsGit`; the manifest
`pkg @ git+https://example.com/pkg.git` gives `NeedsGit`. -/
theorem scanRequirements_is_disjunction_witness :
    (∀ l ∈ Split "opencv-python==4.5".toList '\n', l.length < MaxScanTokenSize) ∧
    scanIsDisjunction "opencv-python==4.5".toList ∧
    scanRequirements "opencv-python==4.5".toList
      = { UsePythonRequirements := true, NeedsLibGL := true, NeedsLibGlib := true } ∧
    (scanRequirements "pkg @ git+https://example.com/pkg.git".toList).NeedsGit = true :=
  ⟨by decide, scanRequirements_is_disjunction _ (by decide), by decide, by decide⟩

theorem manifestLines_after_long_line (n : Nat) :
    "opencv-python==4.5".toList
      ∈ manifestLines (List.replicate n 'a' ++ '\n' :: "opencv-python==4.5".toList) := by
  rw [manifestLines_eq, Split_append_sep _ _ _ (by simp)]
  have hsp : Split "opencv-python==4.5".toList '\n' = ["opencv-python==4.5".toList] := by decide
  rw [hsp]
  have hd : dropLastEmpty [List.replicate n 'a', "opencv-python==4.5".toList]
      = [List.replicate n 'a', "opencv-python==4.5".toList] := by
    unfold dropLastEmpty
    rw [List.getLast?_cons_cons]
    rfl
  rw [hd]
  have hcr : dropCR "opencv-python==4.5".toList = "opencv-python==4.5".toList := by decide
  simp only [List.map_cons, List.map_nil, hcr]
  exact List.mem_cons_of_mem _ (List.mem_cons_self _ _)

/-- The scan of a manifest whose first line has `n` bytes, at least the token
limit, and whose second line is `opencv-python==4.5`: no flag is set, although
the second line is a line of the manifest that the second rule matches. -/
theorem scanRequirements_after_long_line (n : Nat) (hn : MaxScanTokenSize ≤ n) :
    scanRequirements (List.replicate n 'a' ++ '\n' :: "opencv-python==4.5".toList)
      = { UsePythonRequirements := true } ∧
    "opencv-python==4.5".toList
      ∈ manifestLines (List.replicate n 'a' ++ '\n' :: "opencv-python==4.5".toList) ∧
    opencvRule "opencv-python==4.5".toList := by
  have hscan : scannerLines (List.replicate n 'a' ++ '\n' :: "opencv-python==4.5".toList) = [] :=
    scanTokens_too_long MaxScanTokenSize n [] _ 'a' (by decide) (by simpa using hn)
  refine ⟨?_, manifestLines_after_long_line n, (MatchString_opencvRegex _).mp (by decide)⟩
  rw [scanRequirements_flags, hscan]
  rfl

theorem scan_stops_at_long_line (n : Nat) (hn : MaxScanTokenSize ≤ n) :
    ¬ scanIsDisjunction (List.replicate n 'a' ++ '\n' :: "opencv-python==4.5".toList) := by
  intro h
  obtain ⟨hflags, hmem, hrule⟩ := scanRequirements_after_long_line n hn
  have hcv := h.2.2.2.1
  rw [hflags] at hcv
  exact absurd (hcv.mpr ⟨_, hmem, hrule⟩) (by decide)

/-- C5: the code fails the claim at a manifest whose first line has 65536
bytes and whose second line is `opencv-python==4.5`.  The scanner stops at the
first line with `ErrTooLong`, which the loop never checks, so the scan sets no
flag, although the second line is a line of the manifest that starts with
`opencv-python` at a word boundary and, scanned alone, sets `NeedsLibGL` and
`NeedsLibGlib`: the flags are not the disjunction over all lines. -/
theorem scanRequirements_misses_line_after_long_line :
    scanRequirements (List.replicate 65536 'a' ++ '\n' :: "opencv-python==4.5".toList)
      = { UsePythonRequirements := true } ∧
    "opencv-python==4.5".toList
      ∈ manifestLines (List.replicate 65536 'a' ++ '\n' :: "opencv-python==4.5".toList) ∧
    opencvRule "opencv-python==4.5".toList ∧
    scanRequirements "opencv-python==4.5".toList
      = { UsePythonRequirements := true, NeedsLibGL := true, NeedsLibGlib := true } ∧
    ¬ scanIsDisjunction (List.replicate 65536 'a' ++ '\n' :: "opencv-python==4.5".toList) :=
  have h := scanRequirements_after_long_line 65536 (by decide)
  ⟨h.1, h.2.1, h.2.2, by decide, scan_stops_at_long_line 65536 (by decide)⟩

theorem Session.execProcess_keeps (p : ProcEnv) (s : Session) :
    (s.execProcess p).1.fsOps = s.fsOps ∧ (s.execProcess p).1.requirements = s.requirements ∧
    (s.execProcess p).1.builds = s.builds ∧ (s.execProcess p).1.analysis = s.analysis ∧
    (s.execProcess p).1.stream = s.stream := by
  unfold Session.execProcess
  simp only []
  split <;> simp

theorem dockerfileCallback_keeps (benv : BuildEnv) (s : Session) :
    (dockerfileCallback benv s).1.fsOps = s.fsOps ∧
    (dockerfileCallback benv s).1.requirements = s.requirements ∧
    (dockerfileCallback benv s).1.builds = s.builds ∧
    (dockerfileCallback benv s).1.analysis = s.analysis ∧
    (dockerfileCallback benv s).1.stream = s.stream := by
  unfold dockerfileCallback
  split
  · simp
  · split
    · simp
    · exact Session.execProcess_keeps _ _

theorem Session.Send_keeps (env : Env) (s : Session) (m : ActReply) :
    (s.Send env m).1.fsOps = s.fsOps ∧ (s.Send env m).1.requirements = s.requirements ∧
    (s.Send env m).1.builds = s.builds ∧ (s.Send env m).1.analysis = s.analysis := by
  simp [Session.Send]

theorem analysisDockerfile_keeps (env : Env) (s : Session) :
    ((analysisDockerfile env s).1.fsOps = s.fsOps ++ [FsOp.newFS] ∨
      (analysisDockerfile env s).1.fsOps
        = s.fsOps ++ [FsOp.newFS, FsOp.localMounts ["dockerfile", "context"]]) ∧
    (analysisDockerfile env s).1.requirements = s.requirements ∧
    ((analysisDockerfile env s).1.builds = s.builds ∨
      (analysisDockerfile env s).1.builds = s.builds ++ [BuildKind.dockerfile]) ∧
    (analysisDockerfile env s).1.analysis = s.analysis := by
  have hcb := dockerfileCallback_keeps env.dockerBuild
    { s with
      fsOps := s.fsOps ++ [FsOp.newFS] ++ [FsOp.localMounts ["dockerfile", "context"]],
      builds := s.builds ++ [BuildKind.dockerfile] }
  unfold analysisDockerfile Session.Build
  simp only [Session.fs]
  cases hfs : env.dockerBuild.newFS with
  | some e => simp
  | none =>
    simp only []
    rcases hres : dockerfileCallback env.dockerBuild
      { s with
        fsOps := s.fsOps ++ [FsOp.newFS] ++ [FsOp.localMounts ["dockerfile", "context"]],
        builds := s.builds ++ [BuildKind.dockerfile] } with ⟨s1, out⟩
    rw [hres] at hcb
    simp only [] at hcb
    obtain ⟨h1, h2, h3, h4, -⟩ := hcb
    cases out with
    | returned err =>
      cases err with
      | none =>
        cases hb : env.dockerBuild.build with
        | some e => simp [h1, h2, h3, h4]
        | none =>
          simp only []
          have hk := Session.Send_keeps env s1
            { Variant := ReplyVariant.AnalysisResult { UseDockerfile := true } }
          rcases hsend : s1.Send env
            { Variant := ReplyVariant.AnalysisResult { UseDockerfile := true } } with ⟨s2, e⟩
          rw [hsend] at hk
          simp only [] at hk
          obtain ⟨k1, k2, k3, k4⟩ := hk
          cases e <;> simp [h1, h2, h3, h4, k1, k2, k3, k4]
      | some e => simp [h1, h2, h3, h4]
    | blocked => simp [h1, h2, h3, h4]
    | nilDeref => simp [h1, h2, h3, h4]

theorem Analysis_of_accepted (env : Env) (s : Session) (h : initialAccepted env s) :
    Analysis env s = analysisStrategy env { s with inbox := s.inbox.tail } := by
  obtain ⟨hauth, hcl, rest, hin⟩ := h
  unfold Analysis
  simp [hauth, hcl, hin]

/-- C6 as amended: in every session whose initial message is accepted and
whose source root contains a `Dockerfile`, the session proceeds only through
the Dockerfile-driven build: none of its file system calls is a call on
`requirements.txt` (it never checks for, opens, reads or writes it; its calls
are the `os.Stat` on `Dockerfile` and, for the build, `fsutil.NewFS` on the
source root and the hand-over of the root as the build context), the file is
left as it was, and the only build it can start is the Dockerfile build.  If
the send of the log line "Found Dockerfile, will use it" succeeds, the
session's `AnalysisResult` is set to `UseDockerfile` alone; if that send fails,
the `AnalysisResult` is left as it was, no build is started and the session
ends with an internal error. -/
theorem Analysis_dockerfile_never_touches_requirements (env : Env) (s : Session)
    (hacc : initialAccepted env s) (hd : env.statDockerfile = StatResult.found) :
    (∃ ops : List FsOp, (Analysis env s).1.fsOps = s.fsOps ++ ops ∧
      (∀ op ∈ ops, op.onRequirements = false) ∧
      (ops = [FsOp.statDockerfile] ∨ ops = [FsOp.statDockerfile, FsOp.newFS] ∨
        ops = [FsOp.statDockerfile, FsOp.newFS, FsOp.localMounts ["dockerfile", "context"]])) ∧
    (Analysis env s).1.requirements = s.requirements ∧
    ((Analysis env s).1.builds = s.builds ∨
      (Analysis env s).1.builds = s.builds ++ [BuildKind.dockerfile]) ∧
    (env.sendErr s.stream.calls = none →
      (Analysis env s).1.analysis = some { UseDockerfile := true }) ∧
    (∀ e, env.sendErr s.stream.calls = some e →
      (Analysis env s).1.analysis = s.analysis ∧ (Analysis env s).1.builds = s.builds ∧
      (Analysis env s).2 = Outcome.returned (some (Err.internalError "stream send: %w" e))) := by
  rw [Analysis_of_accepted env s hacc]
  unfold analysisStrategy useDockerfile
  simp only [hd, Session.fs, Session.Send, Stream.Send]
  cases hsend : env.sendErr s.stream.calls with
  | some e =>
    refine ⟨⟨[FsOp.statDockerfile], ?_, ?_, Or.inl rfl⟩, ?_⟩
    · simp
    · decide
    · simp
  | none =>
    simp only []
    refine ⟨?_, ?_, ?_, fun _ => ?_, by simp⟩
    · rcases (analysisDockerfile_keeps env _).1 with h | h
      · exact ⟨[FsOp.statDockerfile, FsOp.newFS], by rw [h]; simp, by decide,
          Or.inr (Or.inl rfl)⟩
      · exact ⟨[FsOp.statDockerfile, FsOp.newFS, FsOp.localMounts ["dockerfile", "context"]],
          by rw [h]; simp, by decide, Or.inr (Or.inr rfl)⟩
    · exact (analysisDockerfile_keeps env _).2.1
    · exact (analysisDockerfile_keeps env _).2.2.1
    · exact (analysisDockerfile_keeps env _).2.2.2

/-- A session with a `Dockerfile` and a `requirements.txt`: its file system
calls are the one on `Dockerfile` and the two on the source root for the build
context, and the result is `UseDockerfile`. -/
theorem Analysis_dockerfile_never_touches_requirements_witness :
    initialAccepted dockerfileEnv { initialOnly with requirements := some "opencv-python".toList } ∧
    dockerfileEnv.statDockerfile = StatResult.found ∧
    (Analysis dockerfileEnv { initialOnly with requirements := some "opencv-python".toList }).1.fsOps
      = [FsOp.statDockerfile, FsOp.newFS, FsOp.localMounts ["dockerfile", "context"]] ∧
    (Analysis dockerfileEnv { initialOnly with requirements := some "opencv-python".toList }).1.analysis
      = some { UseDockerfile := true } :=
  have h := Analysis_dockerfile_never_touches_requirements dockerfileEnv
    { initialOnly with requirements := some "opencv-python".toList } ⟨rfl, rfl, [], rfl⟩ rfl
  ⟨⟨rfl, rfl, [], rfl⟩, rfl, by decide, h.2.2.2.1 rfl⟩

/-- A session whose initial message is accepted and whose source root has a
`Dockerfile`, on a stream whose sends fail: the `AnalysisResult` is not set. -/
theorem Analysis_dockerfile_send_failure :
    ¬ (initialAccepted dockerfileSendFails initialOnly →
        dockerfileSendFails.statDockerfile = StatResult.found →
        (Analysis dockerfileSendFails initialOnly).1.analysis = some { UseDockerfile := true }) := by
  intro h
  have h2 := h ⟨rfl, rfl, [], rfl⟩ rfl
  revert h2
  decide

/-- C7: in a session with no `Dockerfile` and no `requirements.txt` in the
source root, once the guess choice has been sent, a negative choice response
ends the session with the user-facing error "can't continue without
requirements.txt; please provide one!"; no `requirements.txt` is created (the
only file system calls are the two `os.Stat`) and no build is started. -/
theorem Analysis_negative_choice (env : Env) (s : Session) (choice : ChoiceBool)
    (rest : List recvReq)
    (hauth : env.checkPeerAuth = (true, none)) (hcl : env.clientNew = none)
    (hin : s.inbox = { req := some { Cancel := false, Choice := none }, err := none }
      :: { req := some { Cancel := false, Choice := some { Bool := some choice } }, err := none }
      :: rest)
    (hneg : choice.Value = false)
    (hd : env.statDockerfile = StatResult.notExist)
    (hr : s.requirements = none) (hre : env.statRequirementsErr = none)
    (hsend : env.sendErr s.stream.calls = none) :
    (Analysis env s).2 = Outcome.returned (some (Err.sendError
      "can't continue without requirements.txt; please provide one!")) ∧
    (Analysis env s).1.requirements = none ∧
    (Analysis env s).1.builds = s.builds ∧
    (Analysis env s).1.fsOps = s.fsOps ++ [FsOp.statDockerfile, FsOp.statRequirements] := by
  rw [Analysis_of_accepted env s ⟨hauth, hcl, _, hin⟩]
  simp [analysisStrategy, useDockerfile, hd, Session.fs, statRequirements, hre, hr,
    analysisGuess, Session.Send, Stream.Send, hsend, hin, GetBool, hneg]


/-- A session without `Dockerfile` and `requirements.txt` whose client declines
the guess: it ends with the user-facing error, without file and without
build. -/
theorem Analysis_negative_choice_witness :
    (Analysis {} declineSession).2 = Outcome.returned (some (Err.sendError
      "can't continue without requirements.txt; please provide one!")) ∧
    (Analysis {} declineSession).1.requirements = none ∧
    (Analysis {} declineSession).1.builds = [] :=
  have h := Analysis_negative_choice {} declineSession
    { Value := false, Title := "", Description := "", Affirmative := "", Negative := "" } []
    rfl rfl rfl rfl rfl rfl rfl rfl
  ⟨h.1, h.2.1, h.2.2.1⟩

/-- The text of the log line `foo` of a step that was never reported. -/
theorem StatusLine.text_log_unknown (fmtWarning : VertexWarning → Bytes)
    (fmtSeconds : Int → Bytes) :
    (StatusLine.log (-1) "foo".toList).text fmtWarning fmtSeconds = "#-1    LOG foo".toList := by
  rfl

/-- The text of the line of a cached step without times. -/
theorem StatusLine.text_vertex_cached (fmtWarning : VertexWarning → Bytes)
    (fmtSeconds : Int → Bytes) :
    (vertexLine 2 { Digest := "sha256:1", Name := "pip install".toList, Cached := true }).text
      fmtWarning fmtSeconds = "#2 CACHED pip install".toList := by
  rfl

/-! ## The build plan and the failing write -/

/-- C11: the state built by `MkLlb` has a system-package install run step (a
run step on the package cache mount) if and only if at least one of
`NeedsGit`, `NeedsLibGL`, `NeedsLibGlib` is set; it comes right after the base
image steps and before the copy of `requirements.txt`.  Its command line is
`dash -c "apt update && apt install -y <packages>"`, where the packages,
separated by single spaces, are exactly `git` (iff `NeedsGit`), `libgl1` (iff
`NeedsLibGL`) and `libglib2.0-0` (iff `NeedsLibGlib`), in that order, with no
package for an unset flag and no duplicates; with all three flags the command
installs `git libgl1 libglib2.0-0`, with `NeedsGit` and `NeedsLibGlib`
`git libglib2.0-0`, with `NeedsLibGL` alone `libgl1`. -/
theorem MkLlb_installs_flagged_packages (analysis : AnalysisResult) :
    installSteps (MkLlbState analysis)
      = (if analysis.NeedsGit = true ∨ analysis.NeedsLibGL = true ∨ analysis.NeedsLibGlib = true
         then ["dash -c \"apt update && apt install -y "
                ++ " ".intercalate (wantedPackages analysis) ++ "\""] else []) ∧
    MkLlbState analysis
      = pythonSlimLlb
        ++ (if analysis.NeedsGit = true ∨ analysis.NeedsLibGL = true ∨ analysis.NeedsLibGlib = true
            then [LlbOp.Run ("dash -c \"apt update && apt install -y "
                    ++ " ".intercalate (wantedPackages analysis) ++ "\"")
                  { path := "/var/cache/apt", id := "/var/cache/apt", locked := true }] else [])
        ++ [LlbOp.Copy "context" [".venv", ".git"] "requirements.txt" ".",
            LlbOp.Run "pip install -r requirements.txt"
              { path := "/root/.cache/pip", id := "/root/.cache/pip", locked := true },
            LlbOp.Copy "context" [".venv", ".git"] "." "."] ∧
    MkLlb none analysis = Except.ok (MkLlbState analysis) ∧
    aptDeps analysis = wantedPackages analysis ∧
    (aptDeps analysis).Nodup ∧
    ("git" ∈ aptDeps analysis ↔ analysis.NeedsGit = true) ∧
    ("libgl1" ∈ aptDeps analysis ↔ analysis.NeedsLibGL = true) ∧
    ("libglib2.0-0" ∈ aptDeps analysis ↔ analysis.NeedsLibGlib = true) ∧
    (aptDeps analysis).Sublist ["git", "libgl1", "libglib2.0-0"] ∧
    installSteps (MkLlbState { NeedsGit := true, NeedsLibGL := true, NeedsLibGlib := true })
      = ["dash -c \"apt update && apt install -y git libgl1 libglib2.0-0\""] ∧
    installSteps (MkLlbState { NeedsGit := true, NeedsLibGlib := true })
      = ["dash -c \"apt update && apt install -y git libglib2.0-0\""] ∧
    installSteps (MkLlbState { NeedsLibGL := true })
      = ["dash -c \"apt update && apt install -y libgl1\""] ∧
    installSteps (MkLlbState {}) = [] := by
  obtain ⟨d, p, g, gl, glib⟩ := analysis
  cases d <;> cases p <;> cases g <;> cases gl <;> cases glib <;>
    refine ⟨?_, ?_, ?_, ?_, ?_, ?_, ?_, ?_, ?_, ?_, ?_, ?_, ?_⟩ <;> first | rfl | decide


theorem sendLines_fails_at (sendErr : Nat → Option Err) (s : logWriter) (lines : List Bytes)
    (st : Stream) (i : Nat) (e : Err) (hi : i < lines.length)
    (hok : ∀ j, j < i → sendErr (st.calls + j) = none)
    (hfail : sendErr (st.calls + i) = some e) :
    logWriter.sendLines sendErr s lines st =
      ({ calls := st.calls + i + 1, sent := st.sent ++ (lines.take i).map (lineMessage s) },
        some (Err.Errorf "stream Send: %w" e)) := by
  induction lines generalizing st i with
  | nil => simp at hi
  | cons l rest ih =>
    cases i with
    | zero =>
      have h0 : sendErr st.calls = some e := by simpa using hfail
      simp [logWriter.sendLines, Stream.Send, h0]
    | succ i =>
      have h0 : sendErr st.calls = none := by simpa using hok 0 (by omega)
      simp only [logWriter.sendLines, Stream.Send, h0]
      refine (ih { calls := st.calls + 1, sent := st.sent ++ [lineMessage s l] } i
        (by simpa using hi) ?_ ?_).trans ?_
      · intro j hj
        have := hok (j + 1) (by omega)
        simpa [Nat.add_assoc, Nat.add_comm 1 j] using this
      · simpa [Nat.add_assoc, Nat.add_comm 1 i] using hfail
      · simp [Nat.add_assoc, Nat.add_comm 1 i]

theorem sendLines_none (sendErr : Nat → Option Err) (s : logWriter) (lines : List Bytes)
    (st : Stream) (h : (logWriter.sendLines sendErr s lines st).2 = none) :
    ∀ j, j < lines.length → sendErr (st.calls + j) = none := by
  induction lines generalizing st with
  | nil => intro j hj; simp at hj
  | cons l rest ih =>
    cases h0 : sendErr st.calls with
    | some e => simp [logWriter.sendLines, Stream.Send, h0] at h
    | none =>
      simp only [logWriter.sendLines, Stream.Send, h0] at h
      have ih2 := ih _ h
      intro j hj
      cases j with
      | zero => simpa using h0
      | succ j =>
        have := ih2 j (by simpa using hj)
        simpa [Nat.add_assoc, Nat.add_comm 1 j] using this

theorem Write_eq (sendErr : Nat → Option Err) (s : logWriter) (p : Bytes) (st : Stream) :
    logWriter.Write sendErr s p st =
      (match (logWriter.sendLines sendErr s (writeLines p) st).2 with
        | some e => (0, some e)
        | none => ((TrimRight p ['\n']).length, none),
       (logWriter.sendLines sendErr s (writeLines p) st).1) := by
  unfold logWriter.Write writeLines
  simp only []
  rcases h : logWriter.sendLines sendErr s (Split (TrimRight p ['\n']) '\n') st with ⟨st1, e⟩
  cases e <;> rfl

/-- C12: if the send fails for a line of a write (the line `i`, the sends of
the lines before it having succeeded), `logWriter.Write` returns the byte
count 0 with a non-nil error that wraps the error of the send, and has sent
the lines before line `i` and none of the later ones; and if it returns a nil
error, the send of every line succeeded. -/
theorem logWriter_Write_aborts_on_send_failure (sendErr : Nat → Option Err) (s : logWriter)
    (p : Bytes) (st : Stream) :
    (∀ (i : Nat) (e : Err), i < (writeLines p).length →
      (∀ j, j < i → sendErr (st.calls + j) = none) → sendErr (st.calls + i) = some e →
      logWriter.Write sendErr s p st =
        ((0, some (Err.Errorf "stream Send: %w" e)),
         { calls := st.calls + i + 1,
           sent := st.sent ++ ((writeLines p).take i).map (lineMessage s) })) ∧
    ((logWriter.Write sendErr s p st).1.2 = none →
      ∀ j, j < (writeLines p).length → sendErr (st.calls + j) = none) := by
  constructor
  · intro i e hi hok hfail
    rw [Write_eq, sendLines_fails_at sendErr s (writeLines p) st i e hi hok hfail]
  · intro h
    apply sendLines_none sendErr s (writeLines p) st
    rw [Write_eq] at h
    cases hs : (logWriter.sendLines sendErr s (writeLines p) st).2 with
    | none => rfl
    | some e => rw [hs] at h; simp at h

/-- A write of `a\nb\nc\n` on a stream whose second send fails: the count is
0, the error wraps that of the send, and only `a` was sent. -/
theorem logWriter_Write_aborts_on_send_failure_witness :
    logWriter.Write secondSendFails ⟨"app"⟩ "a\nb\nc\n".toList {} =
      ((0, some (Err.Errorf "stream Send: %w" (Err.ext "transport is closing"))),
       { calls := 2, sent := [{ Source := "app", Variant := ReplyVariant.Log ['a'] }] }) :=
  (logWriter_Write_aborts_on_send_failure secondSendFails ⟨"app"⟩ "a\nb\nc\n".toList {}).1
    1 (Err.ext "transport is closing") (by decide) (by decide) (by decide)

/-- C13: when every send succeeds, the input is a body that does not end in a
newline followed by `k` newlines, and `logWriter.Write` returns a nil error
with the length of the body: the count is at most the length of the input and
equals it if and only if the input does not end in a newline. -/
theorem logWriter_Write_count (sendErr : Nat → Option Err) (s : logWriter) (p : Bytes)
    (st : Stream) (hsend : ∀ n, sendErr n = none) :
    ∃ (body : Bytes) (k : Nat),
      p = body ++ List.replicate k '\n' ∧ body.getLast? ≠ some '\n' ∧
      (logWriter.Write sendErr s p st).1 = (body.length, none) ∧
      body.length ≤ p.length ∧
      (body.length = p.length ↔ p.getLast? ≠ some '\n') := by
  obtain ⟨trail, hp, htrail, hlast⟩ := TrimRight_split p ['\n']
  have htr : trail = List.replicate trail.length '\n' := by
    apply List.eq_replicate_of_mem
    intro c hc
    simpa using htrail c hc
  have hbody : (TrimRight p ['\n']).getLast? ≠ some '\n' := by
    intro h
    exact hlast _ h (by simp)
  have hlen : p.length = (TrimRight p ['\n']).length + trail.length := by
    conv_lhs => rw [hp]
    simp
  refine ⟨TrimRight p ['\n'], trail.length, ?_, hbody, ?_, by omega, ?_⟩
  · rw [← htr]; exact hp
  · rw [Write_eq, sendLines_ok sendErr hsend]
  · constructor
    · intro h
      have ht : trail = [] := List.eq_nil_of_length_eq_zero (by omega)
      rw [ht, List.append_nil] at hp
      rw [hp]; exact hbody
    · intro h
      have ht : trail = [] := by
        cases trail using List.reverseRecOn with
        | nil => rfl
        | append_singleton t c _ =>
          exfalso
          apply h
          rw [hp, ← List.append_assoc, List.getLast?_append]
          have : c = '\n' := by simpa using htrail c (by simp)
          simp [this]
      rw [ht] at hlen
      simpa using hlen.symm

/-- A write of `a\n` reports 1 of 2 bytes written, with no error. -/
theorem logWriter_Write_count_witness :
    (∃ (body : Bytes) (k : Nat),
      "a\n".toList = body ++ List.replicate k '\n' ∧ body.getLast? ≠ some '\n' ∧
      (logWriter.Write (fun _ => none) ⟨"app"⟩ "a\n".toList {}).1 = (body.length, none) ∧
      body.length ≤ "a\n".toList.length ∧
      (body.length = "a\n".toList.length ↔ "a\n".toList.getLast? ≠ some '\n')) ∧
    (logWriter.Write (fun _ => none) ⟨"app"⟩ "a\n".toList {}).1 = (1, none) ∧
    "a\n".toList.length = 2 :=
  ⟨logWriter_Write_count (fun _ => none) ⟨"app"⟩ "a\n".toList {} (fun _ => rfl),
    by decide, by decide⟩

/-- The lines sent for one status batch: the warnings, the step lines, and
then the lines of the log records of the batch that do not repeat the step and
the timestamp of the record immediately before them, numbered with the map as
it is after the steps of the batch. -/
theorem handleStatus_lines (verts : VertMap) (msg : SolveStatus) :
    (handleStatus verts msg).2
      = msg.Warnings.map StatusLine.warning ++ (vertexLoop verts msg.Vertexes).2
        ++ (keptLogs msg.Logs (repeatsPrevious msg.Logs)).flatMap
            (logLines (vertexLoop verts msg.Vertexes).1) := by
  simp [handleStatus, logLoop_eq_kept, logSkips_none]

end Ayup
